import Mathlib

/-!
Verification development for the `dqstutil` dataset-utility library
(`src/dqstutil.py`).  The Python functions `is_numeric`, `is_possible_date`,
`is_possible_numeric`, `determine_column_type`, `inspect_dataset` and
`extract_unique_values` are shallowly embedded as executable Lean functions,
and the behavioural claims about them are proved below the definitions.

Modelling conventions:
* Python strings are Lean `String`s; per-character work happens on `.data`
  (the underlying `List Char`).  Python's `str.isdigit`/`str.isnumeric`,
  `str.lower` and whitespace tests are modelled by the corresponding ASCII
  character predicates (`Char.isDigit`, `Char.toLower`, an explicit ASCII
  whitespace list); non-ASCII digit scripts and Unicode spaces are outside
  the model.
* `complex(s)` (used by `is_numeric`) is modelled by a recursive-descent
  parser `to_complex` following CPython's grammar for complex-number
  strings: optional surrounding whitespace and parentheses around one of
  `<float>`, `<float>j`, `<float><signed-float>j`, `<float><sign>j`,
  `<sign>j`, `j`, where `<float>` is an optionally signed decimal number
  (with optional fraction, exponent and PEP-515 underscores between
  digits) or one of `inf`, `infinity`, `nan` (case-insensitive).
* Scalar cell values are `PyScalar`: a string, or a native `int`, `float`
  or `complex` number.  The embedded functions only ever inspect the
  runtime type of non-string scalars (`type(x) in [int, float, complex]`),
  never their numeric value, so `float`/`cplx` carry no payload.
-/

/-- ASCII whitespace recognised by CPython's number parsers. -/
def py_isspace (c : Char) : Bool :=
  c == ' ' || c == '\t' || c == '\n' || c == '\x0d' || c == '\x0b' || c == '\x0c'

/-- Drop leading whitespace. -/
def skipSpaces : List Char → List Char
  | [] => []
  | c :: rest => if py_isspace c then skipSpaces rest else c :: rest

/-- Consume `(digit | '_' digit)*`: the continuation of a digit run, allowing
PEP-515 underscores strictly between digits.  Returns the unconsumed rest. -/
def digitRunAux : List Char → List Char
  | '_' :: c :: rest => if c.isDigit then digitRunAux rest else '_' :: c :: rest
  | c :: rest => if c.isDigit then digitRunAux rest else c :: rest
  | [] => []

/-- Consume a digit run `digit (digit | '_' digit)*`; `none` if there is no
leading digit. -/
def digitRun : List Char → Option (List Char)
  | c :: rest => if c.isDigit then some (digitRunAux rest) else none
  | [] => none

/-- Case-insensitively consume the keyword `k` (given in lowercase). -/
def matchCI : List Char → List Char → Option (List Char)
  | [], rest => some rest
  | k :: ks, c :: rest => if c.toLower == k then matchCI ks rest else none
  | _ :: _, [] => none

/-- Consume an optional exponent `('e'|'E') ['+'|'-'] digits`.  A malformed
exponent is not consumed at all (strtod backtracks to before the 'e'). -/
def parseExp (s : List Char) : List Char :=
  match s with
  | c :: rest =>
    if c == 'e' || c == 'E' then
      match rest with
      | d :: rest2 =>
        if d == '+' || d == '-' then
          match digitRun rest2 with
          | some r => r
          | none => s
        else
          match digitRun rest with
          | some r => r
          | none => s
      | [] => s
    else s
  | [] => s

/-- Consume an unsigned decimal float: `digits ['.' [digits]] [exp]` or
`'.' digits [exp]`. -/
def parseDecimal (s : List Char) : Option (List Char) :=
  match digitRun s with
  | some rest =>
    match rest with
    | '.' :: rest2 =>
      match digitRun rest2 with
      | some rest3 => some (parseExp rest3)
      | none => some (parseExp rest2)
    | _ => some (parseExp rest)
  | none =>
    match s with
    | '.' :: rest =>
      match digitRun rest with
      | some rest2 => some (parseExp rest2)
      | none => none
    | _ => none

/-- Consume an unsigned `<float>`-body: `inf`, `infinity`, `nan`
(case-insensitive) or a decimal number. -/
def parseUFloat (s : List Char) : Option (List Char) :=
  match matchCI ['i','n','f','i','n','i','t','y'] s with
  | some rest => some rest
  | none =>
    match matchCI ['i','n','f'] s with
    | some rest => some rest
    | none =>
      match matchCI ['n','a','n'] s with
      | some rest => some rest
      | none => parseDecimal s

/-- Consume an optionally signed `<float>`. -/
def parseSFloat (s : List Char) : Option (List Char) :=
  match s with
  | '+' :: rest => parseUFloat rest
  | '-' :: rest => parseUFloat rest
  | _ => parseUFloat s

/-- Consume a literal `j` or `J`. -/
def expectJ : List Char → Option (List Char)
  | c :: rest => if c == 'j' || c == 'J' then some rest else none
  | [] => none

/-- Consume the body of a complex-number string (CPython
`complex_subtype_from_string`): `<float>`, `<float>j`,
`<float><signed-float>j`, `<float><sign>j`, `<sign>j` or `j`. -/
def parseComplexBody (s : List Char) : Option (List Char) :=
  match parseSFloat s with
  | some rest =>
    match rest with
    | c :: rest2 =>
      if c == '+' || c == '-' then
        match parseSFloat rest with
        | some rest3 => expectJ rest3
        | none => expectJ rest2
      else if c == 'j' || c == 'J' then some rest2
      else some rest
    | [] => some []
  | none =>
    match s with
    | '+' :: rest => expectJ rest
    | '-' :: rest => expectJ rest
    | _ => expectJ s

/-- Model of `complex(numstr)` as used by `is_numeric`: does it succeed?
Optional whitespace, one optional pair of parentheses, a complex body,
and nothing else. -/
def to_complex (s : List Char) : Bool :=
  match skipSpaces s with
  | '(' :: rest =>
    match parseComplexBody (skipSpaces rest) with
    | some rest2 =>
      match skipSpaces rest2 with
      | ')' :: rest3 => (skipSpaces rest3).isEmpty
      | _ => false
    | none => false
  | s1 =>
    match parseComplexBody s1 with
    | some rest2 => (skipSpaces rest2).isEmpty
    | none => false

/-- Python `str.isnumeric()` (ASCII fragment): non-empty and all digits. -/
def str_isnumeric (s : String) : Bool :=
  !s.data.isEmpty && s.data.all Char.isDigit

/-- A scalar cell value: a string or a native `int`, `float` or `complex`
number.  The embedded functions only consult the runtime type of the three
numeric variants, never their value, so `float`/`cplx` carry no payload. -/
inductive PyScalar where
  | str (s : String)
  | int (n : Int)
  | float
  | cplx
deriving DecidableEq

/-- Embedding of `is_numeric` (src/dqstutil.py:44-102): a non-string is numeric iff its
type is `int`, `float` or `complex`; a string is numeric iff
`str.isnumeric()` holds or `complex(...)` parses it. -/
def is_numeric (numstr : PyScalar) : Bool :=
  match numstr with
  | .str s => str_isnumeric s || to_complex s.data
  | _ => true

/-- The twelve three-letter month-name prefixes of `is_possible_date`. -/
def month_prefixes : List (List Char) :=
  [['j','a','n'], ['f','e','b'], ['m','a','r'], ['a','p','r'],
   ['m','a','y'], ['j','u','n'], ['j','u','l'], ['a','u','g'],
   ['s','e','p'], ['o','c','t'], ['n','o','v'], ['d','e','c']]

/-- Python's substring operator `pat in s` on character lists. -/
def containsSub (pat : List Char) : List Char → Bool
  | [] => pat.isEmpty
  | c :: rest => pat.isPrefixOf (c :: rest) || containsSub pat rest

/-- Helper `is_date_separator` from `is_possible_date`. -/
def is_date_separator (c : Char) : Bool :=
  c == '/' || c == '-'

/-- Embedding of `is_possible_date` (src/dqstutil.py:105-147): lowercase the string, then
accept iff it contains a month-name prefix as a substring or contains
exactly two date-separator characters. -/
def is_possible_date (datestr : String) : Bool :=
  let ds := datestr.data.map Char.toLower
  month_prefixes.any (fun m => containsSub m ds)
    || (ds.filter is_date_separator).length == 2

/-- Embedding of `is_possible_numeric` (src/dqstutil.py:150-207): at least one digit,
not possibly a date, at most one '.' and at most one '$'. -/
def is_possible_numeric (numstr : String) : Bool :=
  let contains_one_or_more_digits := numstr.data.any Char.isDigit
  let contains_zero_or_one_decimal_point :=
    (numstr.data.filter (fun c => c == '.')).length < 2
  let contains_zero_or_one_dollar_sign :=
    (numstr.data.filter (fun c => c == '$')).length < 2
  let is_not_possible_date := !is_possible_date numstr
  contains_one_or_more_digits && is_not_possible_date
    && contains_zero_or_one_decimal_point && contains_zero_or_one_dollar_sign

/-- Embedding of `determine_column_type` (src/dqstutil.py:210-243): 'N' if numeric, else
'PN' if possibly numeric, else 'PD' if possibly a date, else 'T'.  A
non-string scalar always satisfies `is_numeric`, so it is tagged 'N'
before the string-only predicates are consulted. -/
def determine_column_type (coldata : PyScalar) : String :=
  match coldata with
  | .str s =>
    if is_numeric (.str s) then "N"
    else if is_possible_numeric s then "PN"
    else if is_possible_date s then "PD"
    else "T"
  | _ => "N"

/-! ## Dataset scanner (`inspect_dataset`, src/dqstutil.py:246-398)

Python `dict`s (insertion-ordered, unique keys) are modelled as ordered
association lists.  `dget`/`dset`/`ddel` are lookup, insert-or-update
(updating in place, appending new keys at the end) and key removal.  The
report-generation branch (`generate_report=True`) only prints the four
collected structures and returns `None`; it is I/O and is outside the
embedding — every claim runs the scanner with report generation disabled,
i.e. the `return (skiprows, columns, uniques, duplicates)` path.

The finalisation loop `for colname in header: ...` re-reads
`uniques[colname]` for every header entry; if the same column name occurs
twice in `header`, the second visit finds the entry already deleted
(Python `KeyError`) or already replaced by its count (`len(int)` raises
`TypeError`).  `inspect_dataset` therefore returns an `Option`, with
`none` for those aborting runs. -/
/-- Insertion-ordered association list standing for a Python `dict`. -/
abbrev Dict (β : Type) := List (String × β)

/-- Dict lookup `d[k]` as an `Option`. -/
def dget {β : Type} (d : Dict β) (k : String) : Option β :=
  match d with
  | [] => none
  | (k', v) :: rest => if k' == k then some v else dget rest k

/-- Dict update `d[k] = v`: update the existing entry in place, else append. -/
def dset {β : Type} (d : Dict β) (k : String) (v : β) : Dict β :=
  match d with
  | [] => [(k, v)]
  | (k', v') :: rest => if k' == k then (k', v) :: rest else (k', v') :: dset rest k v

/-- Dict deletion `del d[k]`. -/
def ddel {β : Type} (d : Dict β) (k : String) : Dict β :=
  d.filter (fun p => p.1 != k)

/-- The initialisation loops `for colname in header: d[colname] = v`. -/
def initDict {β : Type} (header : List String) (v : β) : Dict β :=
  header.foldl (fun d c => dset d c v) []

/-- Pass (a): collect the indices of non length-conformant rows, starting
from index `i`. -/
def collectSkips (rowlen : Nat) : Nat → List (List PyScalar) → List Nat
  | _, [] => []
  | i, row :: rows =>
    if row.length ≠ rowlen then i :: collectSkips rowlen (i + 1) rows
    else collectSkips rowlen (i + 1) rows

/-- The shared shape of passes (b) and (c): enumerate the rows from index
`i`, skip the rows whose index is in `skips`, and fold `step` over the
remaining rows. -/
def loopSkip {σ : Type} (skips : List Nat) (step : σ → List PyScalar → σ) :
    Nat → List (List PyScalar) → σ → σ
  | _, [], s => s
  | i, row :: rows, s =>
    if i ∈ skips then loopSkip skips step (i + 1) rows s
    else loopSkip skips step (i + 1) rows (step s row)

/-- Histogram bump `if coltype in columns[colname]: ... += 1 else: ... = 1`. -/
def histInc (hist : Dict Nat) (coltype : String) : Dict Nat :=
  match dget hist coltype with
  | some n => dset hist coltype (n + 1)
  | none => dset hist coltype 1

/-- Body of pass (b) for one `(colname, colval)` pair of `zip(header, row)`.
`colname` is always a key of `columns` (initialised from `header`), so the
`.getD []` default is unreachable. -/
def typeStepPair (columns : Dict (Dict Nat)) (p : String × PyScalar) : Dict (Dict Nat) :=
  dset columns p.1 (histInc ((dget columns p.1).getD []) (determine_column_type p.2))

/-- Body of pass (c) for one `(colname, colval)` pair: skip unless the
column saw a 'T' cell in pass (b) and this cell is 'T'; then append the
value to the column's uniques list if unseen, else to its duplicates
list.  As in `typeStepPair`, the `.getD []` defaults are unreachable. -/
def uniqStepPair (columns : Dict (Dict Nat))
    (ud : Dict (List PyScalar) × Dict (List PyScalar)) (p : String × PyScalar) :
    Dict (List PyScalar) × Dict (List PyScalar) :=
  if (dget ((dget columns p.1).getD []) "T").isNone then ud
  else if determine_column_type p.2 ≠ "T" then ud
  else
    let ul := (dget ud.1 p.1).getD []
    if p.2 ∈ ul then (ud.1, dset ud.2 p.1 ((dget ud.2 p.1).getD [] ++ [p.2]))
    else (dset ud.1 p.1 (ul ++ [p.2]), ud.2)

/-- A `uniques`/`duplicates` dict value during finalisation: still the
collected list of cell values, or already replaced by its count. -/
inductive UD where
  | cells (l : List PyScalar)
  | count (n : Nat)
deriving DecidableEq

/-- The finalisation loop: replace each collected list by its length,
deleting the column when its uniques list is empty.  `none` models the
`KeyError`/`TypeError` abort that a repeated header name triggers on its
second visit. -/
def finalize : List String → Dict UD → Dict UD → Option (Dict UD × Dict UD)
  | [], u, d => some (u, d)
  | colname :: rest, u, d =>
    match dget u colname, dget d colname with
    | some (.cells uqcol), some (.cells ducol) =>
      if uqcol.length < 1 then finalize rest (ddel u colname) (ddel d colname)
      else finalize rest (dset u colname (.count uqcol.length))
        (dset d colname (.count ducol.length))
    | _, _ => none

/-- Read back the finalised counts.  After a successful finalisation every
remaining entry is a count (every key of the dict came from `header` and
was therefore visited), so the `none` branch is unreachable. -/
def projCounts : Dict UD → Option (Dict Nat)
  | [] => some []
  | (k, UD.count n) :: rest =>
    match projCounts rest with
    | some out => some ((k, n) :: out)
    | none => none
  | (_, UD.cells _) :: _ => none

/-- The metadata tuple returned by `inspect_dataset(..., generate_report=False)`. -/
structure InspectResult where
  skiprows : List Nat
  columns : Dict (Dict Nat)
  uniques : Dict Nat
  duplicates : Dict Nat
deriving DecidableEq

/-- Embedding of `inspect_dataset` (src/dqstutil.py:246-398) with report generation
disabled: collect non-conformant row indices, per-column type histograms,
and per-column unique/duplicate counts over 'T'-typed cells. -/
def inspect_dataset (dataset : List (List PyScalar)) (header : List String) :
    Option InspectResult :=
  let rowlen := header.length
  let skiprows := collectSkips rowlen 0 dataset
  let columns :=
    loopSkip skiprows (fun cols row => (header.zip row).foldl typeStepPair cols)
      0 dataset (initDict header ([] : Dict Nat))
  let ud :=
    loopSkip skiprows (fun ud row => (header.zip row).foldl (uniqStepPair columns) ud)
      0 dataset (initDict header ([] : List PyScalar), initDict header ([] : List PyScalar))
  match finalize header (ud.1.map (fun p => (p.1, UD.cells p.2)))
      (ud.2.map (fun p => (p.1, UD.cells p.2))) with
  | none => none
  | some (u, d) =>
    match projCounts u, projCounts d with
    | some uniques, some duplicates => some ⟨skiprows, columns, uniques, duplicates⟩
    | _, _ => none

/-! ## Unique-value extractor (`extract_unique_values`, src/dqstutil.py:401-562)

The extractor is duck-typed: its argument may be any Python value.  `PyVal`
is the closed universe of values exercised by the function's contract and
tests: strings, ints, dicts (an opaque non-list witness) and lists.
`type(x) is type(y)` / `isinstance(x, type(y))` coincide with equality of
`pyTypeTag` on this universe.

The two list-shaped branches build `set([tuple(value) for value in values])`
and iterate it; CPython's set iteration order is unspecified (it depends on
randomised string hashing), so the embedding takes the enumeration as a
parameter `setOrder`, constrained by `GoodSetOrder` to produce the distinct
elements, each exactly once, in some order. -/
/-- A Python value passed to `extract_unique_values`: a string, an int, a
dict (opaque; only its runtime type matters) or a list. -/
inductive PyVal where
  | vstr (s : String)
  | vint (n : Int)
  | vdict
  | vlist (xs : List PyVal)

mutual

/-- Decidable equality for `PyVal` (hand-written: the automatic deriving
does not handle the nested `List PyVal`). -/
def PyVal.decEq : (a b : PyVal) → Decidable (a = b)
  | .vstr a, .vstr b =>
    if h : a = b then .isTrue (by rw [h]) else .isFalse (by intro hc; cases hc; exact h rfl)
  | .vint a, .vint b =>
    if h : a = b then .isTrue (by rw [h]) else .isFalse (by intro hc; cases hc; exact h rfl)
  | .vdict, .vdict => .isTrue rfl
  | .vlist xs, .vlist ys =>
    match PyVal.decEqList xs ys with
    | .isTrue h => .isTrue (by rw [h])
    | .isFalse h => .isFalse (by intro hc; cases hc; exact h rfl)
  | .vstr _, .vint _ => .isFalse (fun h => PyVal.noConfusion h)
  | .vstr _, .vdict => .isFalse (fun h => PyVal.noConfusion h)
  | .vstr _, .vlist _ => .isFalse (fun h => PyVal.noConfusion h)
  | .vint _, .vstr _ => .isFalse (fun h => PyVal.noConfusion h)
  | .vint _, .vdict => .isFalse (fun h => PyVal.noConfusion h)
  | .vint _, .vlist _ => .isFalse (fun h => PyVal.noConfusion h)
  | .vdict, .vstr _ => .isFalse (fun h => PyVal.noConfusion h)
  | .vdict, .vint _ => .isFalse (fun h => PyVal.noConfusion h)
  | .vdict, .vlist _ => .isFalse (fun h => PyVal.noConfusion h)
  | .vlist _, .vstr _ => .isFalse (fun h => PyVal.noConfusion h)
  | .vlist _, .vint _ => .isFalse (fun h => PyVal.noConfusion h)
  | .vlist _, .vdict => .isFalse (fun h => PyVal.noConfusion h)

/-- Decidable equality for lists of `PyVal`. -/
def PyVal.decEqList : (xs ys : List PyVal) → Decidable (xs = ys)
  | [], [] => .isTrue rfl
  | [], _ :: _ => .isFalse (fun h => List.noConfusion h)
  | _ :: _, [] => .isFalse (fun h => List.noConfusion h)
  | x :: xs, y :: ys =>
    match PyVal.decEq x y, PyVal.decEqList xs ys with
    | .isTrue h1, .isTrue h2 => .isTrue (by rw [h1, h2])
    | .isFalse h1, _ => .isFalse (by intro hc; injection hc with e1 e2; exact h1 e1)
    | _, .isFalse h2 => .isFalse (by intro hc; injection hc with e1 e2; exact h2 e2)

end

instance : DecidableEq PyVal := PyVal.decEq

/-- Runtime type tag; `type(x) is type(y)` iff the tags agree. -/
def pyTypeTag : PyVal → Nat
  | .vstr _ => 0
  | .vint _ => 1
  | .vdict => 2
  | .vlist _ => 3

/-- Test `isinstance(x, list)`. -/
def isListV : PyVal → Bool
  | .vlist _ => true
  | _ => false

/-- The elements of a list value (call sites guarantee the argument is a
list, so the default is unreachable). -/
def listElems : PyVal → List PyVal
  | .vlist xs => xs
  | _ => []

/-- Helper `contains_no_list` from `extract_unique_values`. -/
def contains_no_list (value : List PyVal) : Bool :=
  value.all (fun x => !isListV x)

/-- Helper `is_homogenous` from `extract_unique_values`. -/
def is_homogenous (value : List PyVal) (template : PyVal) : Bool :=
  value.all (fun x => pyTypeTag x == pyTypeTag template)

/-- Conversion `x if isinstance(x, str) else str(x)` from the `to_str` helper.  `str()`
of dicts and lists is not modelled (those never reach the join: the
multi-element branch requires list-free sublists, and sublists containing
a dict make the preceding `set(...)` construction raise). -/
def py_str : PyVal → String
  | .vstr s => s
  | .vint n => toString n
  | .vdict => "<dict>"
  | .vlist _ => "<list>"

/-- The non-list branch: `[value for idx, value in enumerate(values) if
value not in values[:idx]]` — first-occurrence deduplication. -/
def firstOccurDedup (vs : List PyVal) : List PyVal :=
  (vs.enum.filter (fun p => !((vs.take p.1).contains p.2))).map Prod.snd

/-- Python's `sorted` on the homogeneous lists the extractor sorts.
Cross-type comparisons (which raise in Python) and dict ordering are not
modelled; all claims run the extractor with `sort` unset. -/
def pyLe (a b : PyVal) : Bool :=
  match a, b with
  | .vstr x, .vstr y => decide (x ≤ y)
  | .vint x, .vint y => decide (x ≤ y)
  | _, _ => true

/-- Insert into a `pyLe`-sorted list, after any `pyLe`-smaller elements. -/
def pyInsert (x : PyVal) : List PyVal → List PyVal
  | [] => [x]
  | y :: ys => if pyLe y x then y :: pyInsert x ys else x :: y :: ys

/-- Python `sorted(uniques)`: ascending insertion sort. -/
def pySorted (l : List PyVal) : List PyVal :=
  l.foldr pyInsert []

/-- An admissible iteration order of `set(ts)`: the distinct elements of
`ts`, each exactly once, in some order. -/
def GoodSetOrder (setOrder : List (List PyVal) → List (List PyVal)) : Prop :=
  ∀ ts : List (List PyVal), (setOrder ts).Perm ts.dedup

/-- Hashability of a value in CPython: strings and ints are hashable,
dicts and lists are not.  A tuple hashes iff all its elements do, so
`set([tuple(value) for value in values])` raises `TypeError` as soon as a
sublist contains a dict (nested lists are already rejected by the
`contains_no_list` check before the set is built). -/
def pyHashable : PyVal → Bool
  | .vstr _ => true
  | .vint _ => true
  | .vdict => false
  | .vlist _ => false

/-- Observable outcome of a call to `extract_unique_values`: an escaped
exception (the `TypeError` from hashing an unhashable tuple element in
`set(...)`), the deliberate `return None` failure sentinel, or a returned
list. -/
inductive ExtractResult where
  | raised
  | retNone
  | retList (l : List PyVal)
deriving DecidableEq

/-- Embedding of `extract_unique_values` (src/dqstutil.py:401-562), parameterised by the
set-iteration order used for the list-shaped branches.  After the
structural checks succeed, the list-shaped branches build
`set([tuple(value) for value in values])`; this raises `TypeError` when a
sublist contains an unhashable (dict) value, modelled by `.raised`. -/
def extract_unique_values (setOrder : List (List PyVal) → List (List PyVal))
    (values : PyVal) (sort : Bool) (sep : String) : ExtractResult :=
  match values with
  | .vlist [] => .retNone
  | .vlist (v0 :: vrest) =>
    let vs := v0 :: vrest
    if !(vs.all fun v => pyTypeTag v == pyTypeTag v0) then .retNone
    else
      match v0 with
      | .vlist l0 =>
        let value_len := l0.length
        if value_len == 0 then .retNone
        else if !(vs.all fun v => (listElems v).length == value_len
            && contains_no_list (listElems v)
            && is_homogenous (listElems v) ((listElems v).headD .vdict)) then .retNone
        else
          let tuples := vs.map listElems
          if !(tuples.all fun t => t.all pyHashable) then .raised
          else
            let uniques :=
              if value_len > 1 then
                (setOrder tuples).map
                  (fun t => PyVal.vstr (String.intercalate sep (t.map py_str)))
              else
                (setOrder tuples).map (fun t => t.headD .vdict)
            .retList (if sort then pySorted uniques else uniques)
      | _ =>
        let uniques := firstOccurDedup vs
        .retList (if sort then pySorted uniques else uniques)
  | _ => .retNone

/-! ## Claim C6: the extractor's failure conditions -/
/-- The failure conditions of `extract_unique_values` as the specification
states them: the input is not list-shaped, or is an empty list, or its
elements are not all of one homogeneous type, or — when the elements are
themselves lists — the sublists are not all identical in length, or some
sublist is empty, or some sublist is internally non-homogeneous, or some
sublist contains a nested list. -/
def specExtractFails (values : PyVal) : Bool :=
  match values with
  | .vlist [] => true
  | .vlist (x0 :: xs) =>
    !((x0 :: xs).all fun v => pyTypeTag v == pyTypeTag x0)
    || ((x0 :: xs).all isListV &&
         (!((x0 :: xs).all fun v => (listElems v).length == (listElems x0).length)
          || (x0 :: xs).any (fun v => (listElems v).isEmpty)
          || !((x0 :: xs).all fun v =>
                 is_homogenous (listElems v) ((listElems v).headD .vdict))
          || (x0 :: xs).any (fun v => !contains_no_list (listElems v))))
  | _ => true

/-- The error path the original failure-condition list misses: the input
is a list of list-shaped elements and some sublist contains an unhashable
(dict) value, so that — once the structural checks pass — CPython raises
`TypeError` while constructing `set([tuple(value) for value in values])`. -/
def specExtractRaises (values : PyVal) : Bool :=
  match values with
  | .vlist xs =>
    xs.all isListV && xs.any (fun v => (listElems v).any (fun x => !pyHashable x))
  | _ => false

/-! ## Claim C8: infrastructure — per-column view of pass (b) -/
/-- The cells of column `c` contributed by one row. -/
def rowCellsC (header : List String) (c : String) (row : List PyScalar) : List PyScalar :=
  ((header.zip row).filter (fun p => p.1 == c)).map Prod.snd

/-- The cells of column `c` over the length-conformant rows. -/
def columnCells (dataset : List (List PyScalar)) (header : List String) (c : String) :
    List PyScalar :=
  ((dataset.filter (fun r => r.length == header.length)).map (rowCellsC header c)).flatten

/-- The number of 'T'-tagged cells of column `c` over the length-conformant
rows. -/
def tCellCount (dataset : List (List PyScalar)) (header : List String) (c : String) : Nat :=
  (columnCells dataset header c).countP (fun v => determine_column_type v == "T")

/-- One cell's effect on a column's (optional) histogram. -/
def histCellStep (o : Option (Dict Nat)) (v : PyScalar) : Option (Dict Nat) :=
  some (histInc (o.getD []) (determine_column_type v))

/-! ## Claim C8: infrastructure — per-column view of pass (c) -/
/-- One cell's effect on a column's (uniques, duplicates) pair in pass (c),
given the column's fixed histogram `histc`. -/
def uniqCellStep (histc : Dict Nat)
    (ud : Option (List PyScalar) × Option (List PyScalar)) (v : PyScalar) :
    Option (List PyScalar) × Option (List PyScalar) :=
  if (dget histc "T").isNone then ud
  else if determine_column_type v ≠ "T" then ud
  else
    let ul := ud.1.getD []
    if v ∈ ul then (ud.1, some (ud.2.getD [] ++ [v]))
    else (some (ul ++ [v]), ud.2)

/-! ## Claim C8: infrastructure — finalisation and count projection -/
/-- Matching shapes of the uniques/duplicates entries for one key. -/
def pairedUD (a b : Option UD) : Prop :=
  (a = none ∧ b = none) ∨
  (∃ lu ld, a = some (UD.cells lu) ∧ b = some (UD.cells ld)) ∨
  (∃ n m, a = some (UD.count n) ∧ b = some (UD.count m))

/-! ## Doctest-style checks of the embedded functions -/

example : is_numeric (.str "sgsgsg") = false := by decide

example : is_numeric (.str "6") = true := by decide

example : is_numeric (.str "4.1") = true := by decide

example : is_numeric (.str "-4.1") = true := by decide

example : is_numeric (.str "4.1.4") = false := by decide

example : is_numeric (.str "56M") = false := by decide

example : is_numeric (.str "inf") = true := by decide

example : is_numeric (.str "nan") = true := by decide

example : is_numeric (.str "3+4j") = true := by decide

example : is_possible_date "sgsgsg" = false := by decide

example : is_possible_date "1/1/1" = true := by decide

example : is_possible_date "1/1/1/" = false := by decide

example : is_possible_date "1-1-1" = true := by decide

example : is_possible_date "1--1-1" = false := by decide

example : is_possible_date "January 1, 1999" = true := by decide

example : is_possible_numeric "sgsgsg" = false := by decide

example : is_possible_numeric "1/1/1" = false := by decide

example : is_possible_numeric "January 1, 1999" = false := by decide

example : is_possible_numeric "15M" = true := by decide

example : is_possible_numeric "$14.34" = true := by decide

example : is_possible_numeric "$$59" = false := by decide

example : is_possible_numeric "1,456,234" = true := by decide

example : is_possible_numeric "1.0.23" = false := by decide

example : is_possible_numeric "1.23" = true := by decide

example : is_possible_numeric "1,7kM" = true := by decide

example :
    inspect_dataset
      [[.str "a1", .str "b1", .str "c1"],
       [.str "a2", .str "c2"],
       [.str "a3", .str "b3", .str "c3"],
       [.str "a4", .str "bib", .str "3"],
       [.str "ay", .str "bib", .str "x"],
       [.str "ay", .str "bib", .str "x"]]
      ["a", "b", "c"] =
    some { skiprows := [1],
           columns := [("a", [("PN", 3), ("T", 2)]),
                       ("b", [("PN", 2), ("T", 3)]),
                       ("c", [("PN", 2), ("N", 1), ("T", 2)])],
           uniques := [("a", 1), ("b", 1), ("c", 1)],
           duplicates := [("a", 1), ("b", 2), ("c", 1)] } := by decide

example : extract_unique_values List.dedup .vdict false "|" = .retNone := by decide

example : extract_unique_values List.dedup (.vlist []) false "|" = .retNone := by decide
example : extract_unique_values List.dedup (.vlist [.vdict, .vdict]) false "|" =
    .retList [.vdict] := by decide
example : extract_unique_values List.dedup (.vlist [.vlist [.vdict]]) false "|" =
    .raised := by decide

example :
    extract_unique_values List.dedup
      (.vlist [.vstr "d", .vint 4, .vdict, .vlist [.vint 3]]) false "|" = .retNone := by decide

example :
    extract_unique_values List.dedup
      (.vlist ([.vstr "a", .vstr "t", .vstr "z", .vstr "k", .vstr "v", .vstr "z",
        .vstr "t"])) false "|" =
      .retList [.vstr "a", .vstr "t", .vstr "z", .vstr "k", .vstr "v"] := by decide

example :
    extract_unique_values List.dedup
      (.vlist [.vint 1, .vint 3, .vint 2, .vint 1]) false "|" =
      .retList [.vint 1, .vint 3, .vint 2] := by decide

example :
    extract_unique_values List.dedup
      (.vlist [.vint 1, .vint 3, .vint 2, .vint 1]) true "|" =
      .retList [.vint 1, .vint 2, .vint 3] := by decide

example :
    extract_unique_values List.dedup
      (.vlist [.vlist [.vstr "a1"], .vlist [.vstr "b1"], .vlist [],
        .vlist [.vstr "a2"], .vlist [.vstr "b1"]]) false "|" = .retNone := by decide

example :
    extract_unique_values List.dedup
      (.vlist [.vlist [.vstr "a1"], .vlist [.vstr "b1"], .vint 0,
        .vlist [.vstr "a2"], .vlist [.vstr "b1"]]) false "|" = .retNone := by decide

example :
    extract_unique_values List.dedup
      (.vlist [.vlist [.vstr "a1", .vstr "b1", .vstr "c1"],
        .vlist [.vstr "a2", .vstr "c2"],
        .vlist [.vstr "a3", .vstr "b3", .vstr "c3"]]) false "|" = .retNone := by decide

example :
    extract_unique_values List.dedup
      (.vlist [.vlist [.vstr "a1", .vstr "b1", .vstr "c1"],
        .vlist [.vstr "a2", .vint 0, .vstr "c2"]]) false "|" = .retNone := by decide

example :
    extract_unique_values List.dedup
      (.vlist [.vlist [.vint 11, .vint 12, .vint 13],
        .vlist [.vint 34, .vint 0, .vint 85],
        .vlist [.vint 11, .vint 12, .vint 13]]) false "|" =
      .retList [.vstr "34|0|85", .vstr "11|12|13"] := by decide

example : determine_column_type (.str "sgsgsg") = "T" := by decide

example : determine_column_type (.str "15M") = "PN" := by decide

example : determine_column_type (.str "-4.1") = "N" := by decide

example : determine_column_type (.str "January 1, 1999") = "PD" := by decide

example : determine_column_type (.int 6) = "N" := by decide

/-! ## Theorems -/

/-! ## Helper lemmas about the classifier -/
/-- Correctness of `containsSub`: it decides the substring relation. -/
theorem containsSub_iff (pat s : List Char) : containsSub pat s = true ↔ pat <:+: s := by
  induction s with
  | nil => simp [containsSub, List.infix_nil, List.isEmpty_iff]
  | cons c rest ih =>
    rw [containsSub]
    simp [List.isPrefixOf_iff_prefix, ih, List.infix_cons_iff]

/-- Lowercasing does not create or destroy date separators. -/
theorem is_date_separator_toLower (c : Char) :
    is_date_separator c.toLower = is_date_separator c := by
  have hsep : ∀ (m : Nat), 97 ≤ m → m ≤ 122 → is_date_separator (Char.ofNat m) = false := by
    intro m hm1 hm2
    have hv : m.isValidChar := Or.inl (by omega)
    have hval : (Char.ofNat m).val.toNat = m := by rw [Char.ofNat, dif_pos hv]; rfl
    simp only [is_date_separator, Bool.or_eq_false_iff, beq_eq_false_iff_ne, ne_eq]
    constructor
    · intro hc; rw [hc] at hval
      have : ('/' : Char).val.toNat = 47 := by decide
      omega
    · intro hc; rw [hc] at hval
      have : ('-' : Char).val.toNat = 45 := by decide
      omega
  simp only [Char.toLower]
  by_cases h : c.toNat ≥ 65 ∧ c.toNat ≤ 90
  · rw [if_pos h]
    rw [hsep (c.toNat + 32) (by omega) (by omega)]
    symm
    simp only [is_date_separator, Bool.or_eq_false_iff, beq_eq_false_iff_ne, ne_eq]
    have h47 : ('/' : Char).toNat = 47 := by decide
    have h45 : ('-' : Char).toNat = 45 := by decide
    constructor
    · intro hc; rw [hc] at h; omega
    · intro hc; rw [hc] at h; omega
  · rw [if_neg h]

/-- Counting date separators on the lowercased string equals counting them
on the original string. -/
theorem length_filter_sep_map_toLower (l : List Char) :
    ((l.map Char.toLower).filter is_date_separator).length =
      (l.filter is_date_separator).length := by
  rw [← List.countP_eq_length_filter, ← List.countP_eq_length_filter, List.countP_map]
  apply List.countP_congr
  intro c _
  simp only [Function.comp_apply, is_date_separator_toLower c]

/-! ## Claims C1, C9, C3, C4, C2 -/
/-- C1: on every scalar (string, int, float or complex), the classifier
`determine_column_type` returns one of the four tags 'N', 'PN', 'PD', 'T',
and it follows the fixed priority `is_numeric` → `is_possible_numeric` →
`is_possible_date` → fallback: whenever an earlier predicate holds the
corresponding tag is returned regardless of the later predicates. -/
theorem claim_C1 :
    (∀ v : PyScalar, determine_column_type v = "N" ∨ determine_column_type v = "PN" ∨
      determine_column_type v = "PD" ∨ determine_column_type v = "T") ∧
    (∀ v : PyScalar, is_numeric v = true → determine_column_type v = "N") ∧
    (∀ s : String, is_numeric (.str s) = false → is_possible_numeric s = true →
      determine_column_type (.str s) = "PN") ∧
    (∀ s : String, is_numeric (.str s) = false → is_possible_numeric s = false →
      is_possible_date s = true → determine_column_type (.str s) = "PD") ∧
    (∀ s : String, is_numeric (.str s) = false → is_possible_numeric s = false →
      is_possible_date s = false → determine_column_type (.str s) = "T") := by
  refine ⟨?_, ?_, ?_, ?_, ?_⟩
  · intro v
    cases v with
    | str s =>
      simp only [determine_column_type]
      split_ifs <;> simp
    | int n => exact Or.inl rfl
    | float => exact Or.inl rfl
    | cplx => exact Or.inl rfl
  · intro v h
    cases v with
    | str s => simp [determine_column_type, h]
    | int n => rfl
    | float => rfl
    | cplx => rfl
  · intro s h1 h2
    simp [determine_column_type, h1, h2]
  · intro s h1 h2 h3
    simp [determine_column_type, h1, h2, h3]
  · intro s h1 h2 h3
    simp [determine_column_type, h1, h2, h3]

/-- C1 witness: the priority cases at concrete inputs. -/
theorem claim_C1_witness :
    determine_column_type (.str "15M") = "PN" :=
  claim_C1.2.2.1 "15M" (by decide) (by decide)

/-- C9: `determine_column_type` tags 'inf' and 'nan' as 'N' although they
contain no digit, because `is_numeric` accepts any string the
complex-number parser accepts. -/
theorem claim_C9 :
    determine_column_type (.str "inf") = "N" ∧ determine_column_type (.str "nan") = "N" ∧
    "inf".data.any Char.isDigit = false ∧ "nan".data.any Char.isDigit = false ∧
    to_complex "inf".data = true ∧ to_complex "nan".data = true ∧
    is_numeric (.str "inf") = true ∧ is_numeric (.str "nan") = true := by
  exact ⟨by decide, by decide, by decide, by decide, by decide, by decide, by decide, by decide⟩

/-- C3: `is_possible_date` holds iff the case-folded string contains one of
the twelve month prefixes as a substring or the string contains exactly two
characters from {'/', '-'}; in particular '1/1/1' and '1-1-1' qualify while
'1/1/1/' and '1--1-1' (three separators) do not. -/
theorem claim_C3 :
    (∀ s : String,
      is_possible_date s = true ↔
        ((∃ m ∈ month_prefixes, m <:+: s.data.map Char.toLower) ∨
          (s.data.filter is_date_separator).length = 2)) ∧
    is_possible_date "1/1/1" = true ∧ is_possible_date "1-1-1" = true ∧
    is_possible_date "1/1/1/" = false ∧ is_possible_date "1--1-1" = false := by
  refine ⟨?_, by decide, by decide, by decide, by decide⟩
  intro s
  simp only [is_possible_date, Bool.or_eq_true, List.any_eq_true,
    length_filter_sep_map_toLower]
  constructor
  · rintro (⟨m, hm, hsub⟩ | hlen)
    · exact Or.inl ⟨m, hm, (containsSub_iff m _).mp hsub⟩
    · exact Or.inr (by simpa using hlen)
  · rintro (⟨m, hm, hsub⟩ | hlen)
    · exact Or.inl ⟨m, hm, (containsSub_iff m _).mpr hsub⟩
    · exact Or.inr (by simpa using hlen)

/-- C4: `is_possible_numeric` holds iff the string has at least one digit,
is not possibly a date, and contains at most one '.' and at most one '$';
the claim's example strings behave as stated. -/
theorem claim_C4 :
    (∀ s : String,
      is_possible_numeric s = true ↔
        ((∃ c ∈ s.data, c.isDigit = true) ∧ is_possible_date s = false ∧
          s.data.count '.' ≤ 1 ∧ s.data.count '$' ≤ 1)) ∧
    is_possible_numeric "$14.34" = true ∧ is_possible_numeric "1,456,234" = true ∧
    is_possible_numeric "15M" = true ∧ is_possible_numeric "1,7kM" = true ∧
    is_possible_numeric "1.0.23" = false ∧ is_possible_numeric "$$59" = false := by
  refine ⟨?_, by decide, by decide, by decide, by decide, by decide, by decide⟩
  intro s
  simp only [is_possible_numeric, Bool.and_eq_true, List.any_eq_true,
    decide_eq_true_eq, Bool.not_eq_true', List.count_eq_countP,
    List.countP_eq_length_filter]
  constructor
  · rintro ⟨⟨⟨hd, hnd⟩, hdot⟩, hdol⟩
    exact ⟨hd, hnd, by omega, by omega⟩
  · rintro ⟨hd, hnd, hdot, hdol⟩
    exact ⟨⟨⟨hd, hnd⟩, by omega⟩, by omega⟩

/-- C2: the end-to-end scenario — the scanner on the six-row sample dataset
returns invalid row [1], the stated per-column histograms, and the stated
uniqueness and duplicate counts. -/
theorem claim_C2 :
    inspect_dataset
      [[.str "a1", .str "b1", .str "c1"],
       [.str "a2", .str "c2"],
       [.str "a3", .str "b3", .str "c3"],
       [.str "a4", .str "bib", .str "3"],
       [.str "ay", .str "bib", .str "x"],
       [.str "ay", .str "bib", .str "x"]]
      ["a", "b", "c"] =
    some { skiprows := [1],
           columns := [("a", [("PN", 3), ("T", 2)]),
                       ("b", [("PN", 2), ("T", 3)]),
                       ("c", [("PN", 2), ("N", 1), ("T", 2)])],
           uniques := [("a", 1), ("b", 1), ("c", 1)],
           duplicates := [("a", 1), ("b", 2), ("c", 1)] } := by decide

/-- A value whose type tag is that of a list is a list. -/
theorem isListV_of_tag {v : PyVal} (h : pyTypeTag v = 3) : isListV v = true := by
  cases v <;> simp_all [pyTypeTag, isListV]

/-- C6 counterexample: the input `[[{'a': 4}]]` (one single-element
sublist holding a dict) matches none of the claim's failure conditions,
yet the call does not return a list: CPython raises `TypeError` while
building `set([tuple(value) for value in values])`, because dicts are
unhashable. -/
theorem claim_C6_counterexample :
    specExtractFails (.vlist [.vlist [.vdict]]) = false ∧
    extract_unique_values List.dedup (.vlist [.vlist [.vdict]]) false "|" =
      ExtractResult.raised := by
  exact ⟨by decide, by decide⟩

/-- C6 amended: for every admissible set-iteration order,
`extract_unique_values` returns the failure sentinel exactly on the
specification's failure conditions; outside them it returns a list unless
some sublist contains an unhashable (dict) value, in which case the
`set(...)` construction raises instead of returning. -/
theorem claim_C6_amended :
    ∀ (setOrder : List (List PyVal) → List (List PyVal)) (values : PyVal),
      (extract_unique_values setOrder values false "|" = ExtractResult.retNone ↔
        specExtractFails values = true) ∧
      (extract_unique_values setOrder values false "|" = ExtractResult.raised ↔
        (specExtractFails values = false ∧ specExtractRaises values = true)) ∧
      ((specExtractFails values = false ∧ specExtractRaises values = false) →
        ∃ l, extract_unique_values setOrder values false "|" = ExtractResult.retList l) := by
  intro f values
  match values with
  | .vstr s =>
    refine ⟨by simp [extract_unique_values, specExtractFails], ?_, ?_⟩
    · simp [extract_unique_values, specExtractFails]
    · rintro ⟨h1, -⟩
      rw [show specExtractFails (.vstr s) = true from rfl] at h1
      cases h1
  | .vint n =>
    refine ⟨by simp [extract_unique_values, specExtractFails], ?_, ?_⟩
    · simp [extract_unique_values, specExtractFails]
    · rintro ⟨h1, -⟩
      rw [show specExtractFails (.vint n) = true from rfl] at h1
      cases h1
  | .vdict =>
    refine ⟨by simp [extract_unique_values, specExtractFails], ?_, ?_⟩
    · simp [extract_unique_values, specExtractFails]
    · rintro ⟨h1, -⟩
      rw [show specExtractFails .vdict = true from rfl] at h1
      cases h1
  | .vlist [] =>
    refine ⟨by simp [extract_unique_values, specExtractFails], ?_, ?_⟩
    · simp [extract_unique_values, specExtractFails]
    · rintro ⟨h1, -⟩
      rw [show specExtractFails (.vlist []) = true from rfl] at h1
      cases h1
  | .vlist (v0 :: vrest) =>
    by_cases hhom : ((v0 :: vrest).all fun v => pyTypeTag v == pyTypeTag v0) = true
    case neg =>
      have hf : ((v0 :: vrest).all fun v => pyTypeTag v == pyTypeTag v0) = false :=
        Bool.eq_false_iff.mpr hhom
      have hval : extract_unique_values f (.vlist (v0 :: vrest)) false "|"
          = ExtractResult.retNone := by
        simp only [extract_unique_values]
        rw [if_pos (by rw [hf]; decide)]
      have hfail : specExtractFails (.vlist (v0 :: vrest)) = true := by
        simp only [specExtractFails, hf, Bool.not_false, Bool.true_or]
      refine ⟨?_, ?_, ?_⟩
      · rw [hval, hfail]
        simp
      · rw [hval, hfail]
        simp
      · rintro ⟨h1, -⟩
        rw [hfail] at h1
        cases h1
    case pos =>
      cases v0 with
      | vstr s =>
        have hl : ((PyVal.vstr s :: vrest).all isListV) = false := by
          simp [isListV]
        have hval : extract_unique_values f (.vlist (PyVal.vstr s :: vrest)) false "|"
            = ExtractResult.retList (firstOccurDedup (PyVal.vstr s :: vrest)) := by
          simp only [extract_unique_values]
          rw [if_neg (by rw [hhom]; decide)]
          rfl
        have hfail : specExtractFails (.vlist (PyVal.vstr s :: vrest)) = false := by
          simp only [specExtractFails, hhom, Bool.not_true, hl, Bool.false_and,
            Bool.false_or]
        have hraise : specExtractRaises (.vlist (PyVal.vstr s :: vrest)) = false := by
          simp only [specExtractRaises, hl, Bool.false_and]
        exact ⟨by rw [hval, hfail]; simp, by rw [hval, hraise]; simp,
          fun h => ⟨_, hval⟩⟩
      | vint n =>
        have hl : ((PyVal.vint n :: vrest).all isListV) = false := by
          simp [isListV]
        have hval : extract_unique_values f (.vlist (PyVal.vint n :: vrest)) false "|"
            = ExtractResult.retList (firstOccurDedup (PyVal.vint n :: vrest)) := by
          simp only [extract_unique_values]
          rw [if_neg (by rw [hhom]; decide)]
          rfl
        have hfail : specExtractFails (.vlist (PyVal.vint n :: vrest)) = false := by
          simp only [specExtractFails, hhom, Bool.not_true, hl, Bool.false_and,
            Bool.false_or]
        have hraise : specExtractRaises (.vlist (PyVal.vint n :: vrest)) = false := by
          simp only [specExtractRaises, hl, Bool.false_and]
        exact ⟨by rw [hval, hfail]; simp, by rw [hval, hraise]; simp,
          fun h => ⟨_, hval⟩⟩
      | vdict =>
        have hl : ((PyVal.vdict :: vrest).all isListV) = false := by
          simp [isListV]
        have hval : extract_unique_values f (.vlist (PyVal.vdict :: vrest)) false "|"
            = ExtractResult.retList (firstOccurDedup (PyVal.vdict :: vrest)) := by
          simp only [extract_unique_values]
          rw [if_neg (by rw [hhom]; decide)]
          rfl
        have hfail : specExtractFails (.vlist (PyVal.vdict :: vrest)) = false := by
          simp only [specExtractFails, hhom, Bool.not_true, hl, Bool.false_and,
            Bool.false_or]
        have hraise : specExtractRaises (.vlist (PyVal.vdict :: vrest)) = false := by
          simp only [specExtractRaises, hl, Bool.false_and]
        exact ⟨by rw [hval, hfail]; simp, by rw [hval, hraise]; simp,
          fun h => ⟨_, hval⟩⟩
      | vlist l0 =>
        have hlist : ((PyVal.vlist l0 :: vrest).all isListV) = true := by
          rw [List.all_eq_true] at hhom ⊢
          intro v hv
          exact isListV_of_tag (by simpa [pyTypeTag] using hhom v hv)
        by_cases hz : l0.length = 0
        · -- the first sublist is empty: sentinel, and the claim's conditions hold
          have hit : ((PyVal.vlist l0 :: vrest).any fun v => (listElems v).isEmpty) = true := by
            rw [List.any_eq_true]
            refine ⟨.vlist l0, by simp, ?_⟩
            simp [listElems, List.isEmpty_iff, List.length_eq_zero.mp hz]
          have hval : extract_unique_values f (.vlist (PyVal.vlist l0 :: vrest)) false "|"
              = ExtractResult.retNone := by
            simp only [extract_unique_values]
            rw [if_neg (by rw [hhom]; decide)]
            rw [if_pos (by simp [hz])]
          have hfail : specExtractFails (.vlist (PyVal.vlist l0 :: vrest)) = true := by
            simp only [specExtractFails, hhom, hlist, hit, Bool.not_true, Bool.false_or,
              Bool.true_and, Bool.or_true, Bool.true_or]
          refine ⟨?_, ?_, ?_⟩
          · rw [hval, hfail]
            simp
          · rw [hval, hfail]
            simp
          · rintro ⟨h1, -⟩
            rw [hfail] at h1
            cases h1
        · by_cases hall : ((PyVal.vlist l0 :: vrest).all fun v =>
              (listElems v).length == l0.length
              && contains_no_list (listElems v)
              && is_homogenous (listElems v) ((listElems v).headD .vdict)) = true
          · -- structural checks pass; split on a sublist holding a dict
            have h1 : ((PyVal.vlist l0 :: vrest).all fun v =>
                (listElems v).length == (listElems (PyVal.vlist l0)).length) = true := by
              rw [List.all_eq_true] at hall ⊢
              intro v hv
              have h := hall v hv
              simp only [Bool.and_eq_true] at h
              exact h.1.1
            have h2 : ((PyVal.vlist l0 :: vrest).any fun v =>
                (listElems v).isEmpty) = false := by
              rw [Bool.eq_false_iff]
              intro hc
              rw [List.any_eq_true] at hc
              obtain ⟨v, hv, hemp⟩ := hc
              rw [List.all_eq_true] at hall
              have h := hall v hv
              simp only [Bool.and_eq_true] at h
              have hlen := h.1.1
              rw [beq_iff_eq] at hlen
              rw [List.isEmpty_iff] at hemp
              rw [hemp] at hlen
              exact hz hlen.symm
            have h3 : ((PyVal.vlist l0 :: vrest).all fun v =>
                is_homogenous (listElems v) ((listElems v).headD .vdict)) = true := by
              rw [List.all_eq_true] at hall ⊢
              intro v hv
              have h := hall v hv
              simp only [Bool.and_eq_true] at h
              exact h.2
            have h4 : ((PyVal.vlist l0 :: vrest).any fun v =>
                !contains_no_list (listElems v)) = false := by
              rw [Bool.eq_false_iff]
              intro hc
              rw [List.any_eq_true] at hc
              obtain ⟨v, hv, hnb⟩ := hc
              rw [List.all_eq_true] at hall
              have h := hall v hv
              simp only [Bool.and_eq_true] at h
              rw [h.1.2] at hnb
              exact Bool.false_ne_true (by simp at hnb)
            have hfail : specExtractFails (.vlist (PyVal.vlist l0 :: vrest)) = false := by
              simp only [specExtractFails, hhom, hlist, h1, h2, h3, h4, Bool.not_true,
                Bool.false_or, Bool.or_false, Bool.true_and, Bool.and_false]
            by_cases hh : (((PyVal.vlist l0 :: vrest).map listElems).all
                fun t => t.all pyHashable) = true
            · -- everything hashable: a list is returned
              have hraise : specExtractRaises (.vlist (PyVal.vlist l0 :: vrest)) = false := by
                simp only [specExtractRaises]
                have hany : ((PyVal.vlist l0 :: vrest).any
                    fun v => (listElems v).any (fun x => !pyHashable x)) = false := by
                  rw [Bool.eq_false_iff]
                  intro hc
                  rw [List.any_eq_true] at hc
                  obtain ⟨v, hv, hva⟩ := hc
                  rw [List.any_eq_true] at hva
                  obtain ⟨x, hx, hxh⟩ := hva
                  rw [List.all_eq_true] at hh
                  have := hh (listElems v) (List.mem_map.mpr ⟨v, hv, rfl⟩)
                  rw [List.all_eq_true] at this
                  rw [this x hx] at hxh
                  cases hxh
                rw [hany, Bool.and_false]
              have hval : ∃ u, extract_unique_values f (.vlist (PyVal.vlist l0 :: vrest))
                  false "|" = ExtractResult.retList u := by
                simp only [extract_unique_values]
                rw [if_neg (by rw [hhom]; decide)]
                rw [if_neg (fun h => hz (by simpa using h))]
                rw [if_neg (by rw [hall]; decide)]
                rw [if_neg (by rw [hh]; decide)]
                exact ⟨_, rfl⟩
              obtain ⟨u, hval⟩ := hval
              refine ⟨?_, ?_, ?_⟩
              · rw [hval, hfail]
                simp
              · rw [hval, hraise]
                simp
              · exact fun h => ⟨u, hval⟩
            · -- a sublist holds a dict: the set construction raises
              have hhf : (((PyVal.vlist l0 :: vrest).map listElems).all
                  fun t => t.all pyHashable) = false := Bool.eq_false_iff.mpr hh
              have hraise : specExtractRaises (.vlist (PyVal.vlist l0 :: vrest)) = true := by
                simp only [specExtractRaises, hlist, Bool.true_and]
                rcases List.all_eq_false.mp hhf with ⟨t, ht, hta⟩
                obtain ⟨v, hv, rfl⟩ := List.mem_map.mp ht
                rw [List.any_eq_true]
                refine ⟨v, hv, ?_⟩
                rw [List.any_eq_true]
                have hta2 : ((listElems v).all pyHashable) = false :=
                  Bool.eq_false_iff.mpr hta
                rcases List.all_eq_false.mp hta2 with ⟨x, hx, hxh⟩
                exact ⟨x, hx, by simpa using Bool.eq_false_iff.mpr hxh⟩
              have hval : extract_unique_values f (.vlist (PyVal.vlist l0 :: vrest))
                  false "|" = ExtractResult.raised := by
                simp only [extract_unique_values]
                rw [if_neg (by rw [hhom]; decide)]
                rw [if_neg (fun h => hz (by simpa using h))]
                rw [if_neg (by rw [hall]; decide)]
                rw [if_pos (by rw [hhf]; decide)]
              refine ⟨?_, ?_, ?_⟩
              · rw [hval, hfail]
                simp
              · rw [hval, hfail, hraise]
                simp
              · rintro ⟨-, h2⟩
                rw [hraise] at h2
                cases h2
          · -- some sublist violates a structural condition: sentinel, claim's conditions hold
            have hallf : ((PyVal.vlist l0 :: vrest).all fun v =>
                (listElems v).length == l0.length
                && contains_no_list (listElems v)
                && is_homogenous (listElems v) ((listElems v).headD .vdict)) = false :=
              Bool.eq_false_iff.mpr hall
            have hval : extract_unique_values f (.vlist (PyVal.vlist l0 :: vrest)) false "|"
                = ExtractResult.retNone := by
              simp only [extract_unique_values]
              rw [if_neg (by rw [hhom]; decide)]
              rw [if_neg (fun h => hz (by simpa using h))]
              rw [if_pos (by rw [hallf]; decide)]
            have hfail : specExtractFails (.vlist (PyVal.vlist l0 :: vrest)) = true := by
              rcases List.all_eq_false.mp hallf with ⟨v, hv, hf2⟩
              have hfl : ((listElems v).length == l0.length
                  && contains_no_list (listElems v)
                  && is_homogenous (listElems v) ((listElems v).headD .vdict)) = false :=
                Bool.eq_false_iff.mpr hf2
              simp only [specExtractFails, Bool.or_eq_true, Bool.and_eq_true]
              right
              refine ⟨hlist, ?_⟩
              rcases Bool.and_eq_false_iff.mp hfl with hab | hc
              · rcases Bool.and_eq_false_iff.mp hab with ha | hb
                · left; left; left
                  simp only [Bool.not_eq_true', List.all_eq_false]
                  exact ⟨v, hv, by simpa [listElems] using ha⟩
                · right
                  rw [List.any_eq_true]
                  exact ⟨v, hv, by simp [hb]⟩
              · left; right
                rw [Bool.not_eq_true', List.all_eq_false]
                exact ⟨v, hv, fun hq => Bool.false_ne_true (hc ▸ hq)⟩
            refine ⟨?_, ?_, ?_⟩
            · rw [hval, hfail]
              simp
            · rw [hval, hfail]
              simp
            · rintro ⟨hx1, -⟩
              rw [hfail] at hx1
              cases hx1

/-- C6 witness for the amended claim: a homogeneous list of ints matches
no failure condition, contains nothing unhashable, and indeed neither
yields the sentinel nor raises. -/
theorem claim_C6_witness :
    extract_unique_values List.dedup (.vlist [.vint 1, .vint 1]) false "|"
      ≠ ExtractResult.retNone ∧
    extract_unique_values List.dedup (.vlist [.vint 1, .vint 1]) false "|"
      ≠ ExtractResult.raised := by
  obtain ⟨l, hl⟩ := (claim_C6_amended List.dedup
    (.vlist [.vint 1, .vint 1])).2.2 ⟨by decide, by decide⟩
  rw [hl]
  exact ⟨fun h => ExtractResult.noConfusion h, fun h => ExtractResult.noConfusion h⟩


/-! ## Claims C7 and C10: the extractor's list-shaped branches -/
/-- Mapping "the single contained element" over the dedup of a list of
singleton lists gives the dedup of the contained elements. -/
theorem dedup_map_headD (ts : List (List PyVal)) (h1 : ∀ t ∈ ts, t.length = 1) :
    ts.dedup.map (fun t => t.headD PyVal.vdict) =
      (ts.map (fun t => t.headD PyVal.vdict)).dedup := by
  induction ts with
  | nil => rfl
  | cons t ts ih =>
    have ht : t.length = 1 := h1 t (by simp)
    obtain ⟨x, rfl⟩ := List.length_eq_one.mp ht
    have hrest : ∀ u ∈ ts, u.length = 1 := fun u hu => h1 u (by simp [hu])
    by_cases hmem : [x] ∈ ts
    · rw [List.dedup_cons_of_mem hmem]
      have hx : (([x] : List PyVal).headD PyVal.vdict) ∈
          ts.map (fun t => t.headD PyVal.vdict) :=
        List.mem_map.mpr ⟨[x], hmem, rfl⟩
      rw [List.map_cons, List.dedup_cons_of_mem hx]
      exact ih hrest
    · rw [List.dedup_cons_of_not_mem hmem]
      have hx : (([x] : List PyVal).headD PyVal.vdict) ∉
          ts.map (fun t => t.headD PyVal.vdict) := by
        intro hc
        obtain ⟨u, hu, hequ⟩ := List.mem_map.mp hc
        obtain ⟨y, rfl⟩ := List.length_eq_one.mp (hrest u hu)
        simp only [List.headD] at hequ
        subst hequ
        exact hmem hu
      rw [List.map_cons, List.map_cons, List.dedup_cons_of_not_mem hx, ih hrest]

/-- C7 counterexample: `List.dedup` is an admissible set-iteration order,
and under it the extractor returns the distinct contained values of
`[['a1'],['b1'],['a1']]` in the order `['b1','a1']`, not the
first-occurrence order `['a1','b1']` the claim states. -/
theorem claim_C7_counterexample :
    GoodSetOrder List.dedup ∧
    extract_unique_values List.dedup
      (.vlist [.vlist [.vstr "a1"], .vlist [.vstr "b1"], .vlist [.vstr "a1"]]) false "|" =
      ExtractResult.retList [.vstr "b1", .vstr "a1"] ∧
    ExtractResult.retList [PyVal.vstr "b1", PyVal.vstr "a1"] ≠
      ExtractResult.retList [PyVal.vstr "a1", PyVal.vstr "b1"] := by
  exact ⟨fun ts => List.Perm.refl _, by decide, by decide⟩

/-- C7 amended: for every admissible set-iteration order and every
non-empty list whose elements are single-element sublists containing
non-list hashable values (so the `set(...)` construction cannot raise),
the extractor (sort unset) returns a list of the distinct contained
values — a permutation of the first-occurrence list, in an unspecified
set-dependent order. -/
theorem claim_C7_amended :
    ∀ (setOrder : List (List PyVal) → List (List PyVal)), GoodSetOrder setOrder →
    ∀ (vs : List PyVal), vs ≠ [] →
    (vs.all fun v => isListV v && (listElems v).length == 1
      && contains_no_list (listElems v) && (listElems v).all pyHashable) = true →
    ∃ l, extract_unique_values setOrder (.vlist vs) false "|" = ExtractResult.retList l ∧
      l.Perm (vs.map (fun v => (listElems v).headD .vdict)).dedup := by
  intro f hf vs hne hshape
  match vs, hne with
  | v0 :: vrest, _ =>
    rw [List.all_eq_true] at hshape
    have hs0 := hshape v0 (by simp)
    simp only [Bool.and_eq_true] at hs0
    obtain ⟨⟨⟨hlist0, hlen0⟩, hnolist0⟩, hhash0⟩ := hs0
    obtain ⟨l0, rfl⟩ : ∃ l0, v0 = PyVal.vlist l0 := by
      cases v0 <;> simp [isListV] at hlist0 ⊢
    have hlen0' : l0.length = 1 := by simpa [listElems] using hlen0
    have htags : ((PyVal.vlist l0 :: vrest).all fun v =>
        pyTypeTag v == pyTypeTag (PyVal.vlist l0)) = true := by
      rw [List.all_eq_true]
      intro v hv
      have h := hshape v hv
      simp only [Bool.and_eq_true] at h
      have hvl := h.1.1.1
      cases v <;> simp [isListV] at hvl ⊢ <;> rfl
    have hcheck : ((PyVal.vlist l0 :: vrest).all fun v =>
        (listElems v).length == l0.length && contains_no_list (listElems v)
        && is_homogenous (listElems v) ((listElems v).headD .vdict)) = true := by
      rw [List.all_eq_true]
      intro v hv
      have h := hshape v hv
      simp only [Bool.and_eq_true] at h
      obtain ⟨⟨⟨hvl, h1len⟩, hnl⟩, hvhash⟩ := h
      obtain ⟨y, hy⟩ := List.length_eq_one.mp (by simpa using h1len)
      simp only [Bool.and_eq_true]
      refine ⟨⟨?_, hnl⟩, ?_⟩
      · rw [beq_iff_eq, hy, hlen0']
        rfl
      · rw [hy]
        simp [is_homogenous]
    refine ⟨(f ((PyVal.vlist l0 :: vrest).map listElems)).map (fun t => t.headD PyVal.vdict),
      ?_, ?_⟩
    · have hc1 : ¬((!((PyVal.vlist l0 :: vrest).all fun v =>
          pyTypeTag v == pyTypeTag (PyVal.vlist l0))) = true) := by
        rw [htags]; decide
      have hc2 : ¬((l0.length == 0) = true) := by
        rw [hlen0']; decide
      have hc3 : ¬((!((PyVal.vlist l0 :: vrest).all fun v =>
          (listElems v).length == l0.length && contains_no_list (listElems v)
          && is_homogenous (listElems v) ((listElems v).headD .vdict))) = true) := by
        rw [hcheck]; decide
      have hhashAll : (((PyVal.vlist l0 :: vrest).map listElems).all
          fun t => t.all pyHashable) = true := by
        rw [List.all_eq_true]
        intro t ht
        obtain ⟨v, hv, rfl⟩ := List.mem_map.mp ht
        have h := hshape v hv
        simp only [Bool.and_eq_true] at h
        exact h.2
      have hc4 : ¬((!(((PyVal.vlist l0 :: vrest).map listElems).all
          fun t => t.all pyHashable)) = true) := by
        rw [hhashAll]; decide
      have hc5 : ¬(l0.length > 1) := by omega
      have hc6 : ¬(false = true) := by decide
      simp only [extract_unique_values]
      rw [if_neg hc1, if_neg hc2, if_neg hc3, if_neg hc4, if_neg hc5, if_neg hc6]
    · have hsing : ∀ t ∈ (PyVal.vlist l0 :: vrest).map listElems, t.length = 1 := by
        intro t ht
        obtain ⟨v, hv, rfl⟩ := List.mem_map.mp ht
        have h := hshape v hv
        simp only [Bool.and_eq_true] at h
        simpa using h.1.1.2
      have hmap := (hf ((PyVal.vlist l0 :: vrest).map listElems)).map
        (fun t => t.headD PyVal.vdict)
      rw [dedup_map_headD _ hsing] at hmap
      simpa [List.map_map, Function.comp] using hmap

/-- C7 witness for the amended claim, at the concrete set order
`fun ts => ts.dedup` and the claim's example input. -/
theorem claim_C7_witness :
    extract_unique_values (fun ts => ts.dedup)
      (.vlist [.vlist [.vstr "a1"], .vlist [.vstr "b1"], .vlist [.vstr "a1"]])
      false "|" ≠ ExtractResult.retNone := by
  obtain ⟨l, hl, -⟩ := claim_C7_amended (fun ts => ts.dedup)
    (fun ts => List.Perm.refl _)
    [.vlist [.vstr "a1"], .vlist [.vstr "b1"], .vlist [.vstr "a1"]]
    (by decide) (by decide)
  rw [hl]
  exact fun h => ExtractResult.noConfusion h

/-- C10: the extractor accepts a list of equal-length internally
homogeneous sublists even when the element types differ between sublists
(inner homogeneity is only checked against each sublist's own first
element), and returns the separator-joined string forms of the distinct
sublists. -/
theorem claim_C10 :
    ∀ (setOrder : List (List PyVal) → List (List PyVal)), GoodSetOrder setOrder →
    ∃ l, extract_unique_values setOrder
        (.vlist [.vlist [.vint 1, .vint 2], .vlist [.vstr "a", .vstr "b"]]) false "|" =
        ExtractResult.retList l ∧ l.Perm [.vstr "1|2", .vstr "a|b"] := by
  intro f hf
  refine ⟨(f [[.vint 1, .vint 2], [.vstr "a", .vstr "b"]]).map
    (fun t => PyVal.vstr (String.intercalate "|" (t.map py_str))), ?_, ?_⟩
  · rfl
  have hperm := (hf [[.vint 1, .vint 2], [.vstr "a", .vstr "b"]]).map
    (fun t => PyVal.vstr (String.intercalate "|" (t.map py_str)))
  have hded : ([[PyVal.vint 1, PyVal.vint 2],
      [PyVal.vstr "a", PyVal.vstr "b"]] : List (List PyVal)).dedup
      = [[PyVal.vint 1, PyVal.vint 2], [PyVal.vstr "a", PyVal.vstr "b"]] := by decide
  rw [hded] at hperm
  have hmap : ([[PyVal.vint 1, PyVal.vint 2],
      [PyVal.vstr "a", PyVal.vstr "b"]] : List (List PyVal)).map
      (fun t => PyVal.vstr (String.intercalate "|" (t.map py_str)))
      = [PyVal.vstr "1|2", PyVal.vstr "a|b"] := by decide
  rw [hmap] at hperm
  exact hperm

/-- C10 witness at the concrete set order `List.dedup`. -/
theorem claim_C10_witness :
    extract_unique_values List.dedup
      (.vlist [.vlist [.vint 1, .vint 2], .vlist [.vstr "a", .vstr "b"]]) false "|"
      ≠ ExtractResult.retNone := by
  obtain ⟨l, hl, -⟩ := claim_C10 List.dedup (fun ts => List.Perm.refl _)
  rw [hl]
  exact fun h => ExtractResult.noConfusion h

/-! ## Claim C5: empty header -/
/-- Lemma: `collectSkips` collects exactly the indices of the rows whose length
differs from `n`, in order. -/
theorem collectSkips_eq_enumFrom (n : Nat) :
    ∀ (k : Nat) (ds : List (List PyScalar)),
      collectSkips n k ds =
        ((List.enumFrom k ds).filter (fun p => decide (p.2.length ≠ n))).map Prod.fst := by
  intro k ds
  induction ds generalizing k with
  | nil => rfl
  | cons row rows ih =>
    rw [collectSkips, List.enumFrom, List.filter_cons]
    by_cases h : row.length ≠ n
    · rw [if_pos h, if_pos (by simpa using h)]
      rw [List.map_cons, ih]
    · rw [if_neg h, if_neg (by simpa using h)]
      rw [ih]

/-- Running `loopSkip` with a step that never changes the state returns the initial
state. -/
theorem loopSkip_const {σ : Type} (skips : List Nat) (step : σ → List PyScalar → σ)
    (hstep : ∀ s row, step s row = s) :
    ∀ (i : Nat) (rows : List (List PyScalar)) (s : σ), loopSkip skips step i rows s = s := by
  intro i rows
  induction rows generalizing i with
  | nil => intro s; rfl
  | cons row rows ih =>
    intro s
    rw [loopSkip]
    by_cases h : i ∈ skips
    · rw [if_pos h]; exact ih (i + 1) s
    · rw [if_neg h, hstep]; exact ih (i + 1) s

/-- C5 counterexample: with empty header and the non-empty dataset `[[]]`
(one empty row), the scanner returns successfully but `invalid_rows` is
empty — it does not contain the valid row index 0, contradicting the
claim that every row index appears. -/
theorem claim_C5_counterexample :
    inspect_dataset [([] : List PyScalar)] [] =
      some { skiprows := [], columns := [], uniques := [], duplicates := [] } ∧
    (0 : Nat) < [([] : List PyScalar)].length ∧ (0 : Nat) ∉ ([] : List Nat) := by
  exact ⟨by decide, by decide, by decide⟩

/-- C5 amended: for every non-empty dataset, the scanner with an empty
header raises no exception and returns a result whose `invalid_rows` holds
exactly the indices of the rows of nonzero length (hence every row index
when no row is empty), with empty histogram, uniqueness and duplicates
mappings. -/
theorem claim_C5_amended (dataset : List (List PyScalar)) (_ : dataset ≠ []) :
    inspect_dataset dataset [] =
      some { skiprows := (dataset.enum.filter (fun p => decide (p.2.length ≠ 0))).map Prod.fst,
             columns := [], uniques := [], duplicates := [] } := by
  have hskips : collectSkips 0 0 dataset =
      (dataset.enum.filter (fun p => decide (p.2.length ≠ 0))).map Prod.fst := by
    rw [collectSkips_eq_enumFrom]
    rfl
  simp only [inspect_dataset, List.length_nil]
  rw [loopSkip_const (collectSkips 0 0 dataset)
    (fun cols row => List.foldl typeStepPair cols (List.zip [] row))
    (fun s row => rfl)]
  rw [loopSkip_const (collectSkips 0 0 dataset)
    (fun ud row => List.foldl (uniqStepPair (initDict [] [])) ud (List.zip [] row))
    (fun s row => rfl)]
  rw [hskips]
  rfl

/-- C5 witness: the amended claim applied to a concrete one-row dataset
with a non-empty row. -/
theorem claim_C5_witness :
    inspect_dataset [[PyScalar.str "x"]] [] =
      some { skiprows := [0], columns := [], uniques := [], duplicates := [] } := by
  have h := claim_C5_amended [[PyScalar.str "x"]] (by decide)
  rw [h]
  rfl

/-! ## Claim C8: infrastructure — association-list lemmas -/
/-- Lookup after update at the same key. -/
theorem dget_dset_self {β : Type} (d : Dict β) (k : String) (v : β) :
    dget (dset d k v) k = some v := by
  induction d with
  | nil => simp [dset, dget]
  | cons p rest ih =>
    obtain ⟨k', v'⟩ := p
    rw [dset]
    by_cases h : k' = k
    · rw [if_pos (by simpa using h), dget, if_pos (by simpa using h)]
    · rw [if_neg (by simpa using h), dget, if_neg (by simpa using h)]
      exact ih

/-- Lookup after update at a different key. -/
theorem dget_dset_ne {β : Type} (d : Dict β) (k c : String) (v : β) (hne : k ≠ c) :
    dget (dset d k v) c = dget d c := by
  induction d with
  | nil =>
    simp [dset, dget, hne]
  | cons p rest ih =>
    obtain ⟨k', v'⟩ := p
    rw [dset]
    by_cases h : k' = k
    · rw [if_pos (by simpa using h), dget, dget]
      subst h
      rw [if_neg (by simpa using hne), if_neg (by simpa using hne)]
    · rw [if_neg (by simpa using h), dget, dget]
      by_cases h2 : k' = c
      · rw [if_pos (by simpa using h2), if_pos (by simpa using h2)]
      · rw [if_neg (by simpa using h2), if_neg (by simpa using h2)]
        exact ih

/-- Lookup after deletion. -/
theorem dget_ddel {β : Type} (d : Dict β) (k c : String) :
    dget (ddel d k) c = if c = k then none else dget d c := by
  induction d with
  | nil =>
    simp only [ddel, List.filter_nil, dget]
    rw [ite_self]
  | cons p rest ih =>
    obtain ⟨k', v'⟩ := p
    simp only [ddel, List.filter_cons] at ih ⊢
    by_cases h : k' = k
    · rw [if_neg (by simp [h]), ih]
      by_cases h2 : c = k
      · rw [if_pos h2, if_pos h2]
      · rw [if_neg h2, if_neg h2]
        simp only [dget]
        rw [if_neg (show ¬((k' == c) = true) from by
          simp only [beq_iff_eq, h]
          exact fun hc => h2 hc.symm)]
    · rw [if_pos (by simp [h])]
      simp only [dget]
      by_cases h2 : k' = c
      · rw [if_pos (by simpa using h2),
          if_neg (show ¬(c = k) from fun hc => h (h2.trans hc)),
          if_pos (by simpa using h2)]
      · rw [if_neg (by simpa using h2), ih]
        by_cases h3 : c = k
        · rw [if_pos h3, if_pos h3]
        · rw [if_neg h3, if_neg h3, if_neg (by simpa using h2)]

/-- Lookup in the header-initialisation dict. -/
theorem dget_foldl_dset {β : Type} (v : β) :
    ∀ (hs : List String) (d : Dict β) (c : String),
      dget (hs.foldl (fun d' k => dset d' k v) d) c = if c ∈ hs then some v else dget d c := by
  intro hs
  induction hs with
  | nil => intro d c; simp
  | cons h hs ih =>
    intro d c
    rw [List.foldl_cons, ih]
    by_cases hc : c ∈ hs
    · rw [if_pos hc, if_pos (by simp [hc])]
    · rw [if_neg hc]
      by_cases hch : c = h
      · rw [if_pos (by simp [hch])]
        subst hch
        rw [dget_dset_self]
      · rw [if_neg (by simp [hch, hc]), dget_dset_ne _ _ _ _ (fun hc2 => hch hc2.symm)]

/-- Lookup in `initDict`. -/
theorem dget_initDict {β : Type} (header : List String) (v : β) (c : String) :
    dget (initDict header v) c = if c ∈ header then some v else none := by
  rw [initDict, dget_foldl_dset]
  rfl

/-- Lookup commutes with mapping the values. -/
theorem dget_map_val {β γ : Type} (f : β → γ) (d : Dict β) (c : String) :
    dget (d.map (fun p => (p.1, f p.2))) c = (dget d c).map f := by
  induction d with
  | nil => rfl
  | cons p rest ih =>
    obtain ⟨k', v'⟩ := p
    rw [List.map_cons, dget, dget]
    by_cases h : k' = c
    · rw [if_pos (by simpa using h), if_pos (by simpa using h)]
      rfl
    · rw [if_neg (by simpa using h), if_neg (by simpa using h)]
      exact ih

/-! ## Claim C8: infrastructure — reducing the skipping loops to folds over
conformant rows -/
/-- Shifting the start index of `collectSkips` shifts every collected
index. -/
theorem collectSkips_succ (n : Nat) :
    ∀ (rows : List (List PyScalar)) (k : Nat),
      collectSkips n (k + 1) rows = (collectSkips n k rows).map (· + 1) := by
  intro rows
  induction rows with
  | nil => intro k; rfl
  | cons row rest ih =>
    intro k
    rw [collectSkips, collectSkips]
    by_cases h : row.length ≠ n
    · rw [if_pos h, if_pos h]
      simp [ih]
    · rw [if_neg h, if_neg h, ih]

/-- The index of the row after `pre` is collected iff that row is
non-conformant. -/
theorem mem_collectSkips_append (n : Nat) (row : List PyScalar)
    (rest : List (List PyScalar)) :
    ∀ (pre : List (List PyScalar)),
      pre.length ∈ collectSkips n 0 (pre ++ row :: rest) ↔ row.length ≠ n := by
  intro pre
  induction pre with
  | nil =>
    simp only [List.nil_append, List.length_nil]
    rw [collectSkips]
    by_cases h : row.length ≠ n
    · rw [if_pos h]
      simp [h]
    · rw [if_neg h]
      rw [show (0 : Nat) + 1 = 0 + 1 from rfl, collectSkips_succ]
      simp only [List.mem_map]
      constructor
      · rintro ⟨m, _, hme⟩
        omega
      · intro hr
        exact absurd hr h
  | cons q pre ih =>
    simp only [List.cons_append, List.length_cons]
    rw [collectSkips]
    by_cases h : q.length ≠ n
    · rw [if_pos h]
      rw [collectSkips_succ]
      simp only [List.mem_cons, List.mem_map]
      constructor
      · rintro (he | ⟨m, hm, hme⟩)
        · omega
        · have hmp : m = pre.length := by omega
          subst hmp
          exact ih.mp hm
      · intro hr
        right
        exact ⟨pre.length, ih.mpr hr, rfl⟩
    · rw [if_neg h, collectSkips_succ]
      simp only [List.mem_map]
      constructor
      · rintro ⟨m, hm, hme⟩
        have hmp : m = pre.length := by omega
        subst hmp
        exact ih.mp hm
      · intro hr
        exact ⟨pre.length, ih.mpr hr, rfl⟩

/-- The skipping loops of passes (b) and (c) are plain folds over the
length-conformant rows. -/
theorem loopSkip_eq_foldl {σ : Type} (n : Nat) (step : σ → List PyScalar → σ) :
    ∀ (rows pre : List (List PyScalar)) (s : σ),
      loopSkip (collectSkips n 0 (pre ++ rows)) step pre.length rows s =
        List.foldl step s (rows.filter (fun r => r.length == n)) := by
  intro rows
  induction rows with
  | nil => intro pre s; rfl
  | cons row rest ih =>
    intro pre s
    rw [loopSkip, List.filter_cons]
    by_cases h : row.length = n
    · have hmem : pre.length ∉ collectSkips n 0 (pre ++ row :: rest) := by
        rw [mem_collectSkips_append]
        exact fun hc => hc h
      rw [if_neg hmem, if_pos (by simpa using h)]
      have happ := ih (pre ++ [row]) (step s row)
      rw [List.append_assoc, List.singleton_append, List.length_append,
        List.length_singleton] at happ
      rw [List.foldl_cons]
      exact happ
    · have hmem : pre.length ∈ collectSkips n 0 (pre ++ row :: rest) := by
        rw [mem_collectSkips_append]
        exact h
      rw [if_pos hmem, if_neg (by simpa using h)]
      have happ := ih (pre ++ [row]) s
      rw [List.append_assoc, List.singleton_append, List.length_append,
        List.length_singleton] at happ
      exact happ

/-- Per-key view of pass (b) over the pairs of one row. -/
theorem dget_foldl_typeStepPair (c : String) :
    ∀ (ps : List (String × PyScalar)) (cols : Dict (Dict Nat)),
      dget (ps.foldl typeStepPair cols) c =
        ((ps.filter (fun p => p.1 == c)).map Prod.snd).foldl histCellStep (dget cols c) := by
  intro ps
  induction ps with
  | nil => intro cols; rfl
  | cons p rest ih =>
    intro cols
    rw [List.foldl_cons, List.filter_cons]
    by_cases h : p.1 = c
    · rw [if_pos (by simpa using h), List.map_cons, List.foldl_cons, ih]
      congr 1
      rw [typeStepPair]
      subst h
      rw [dget_dset_self]
      rfl
    · rw [if_neg (by simpa using h), ih]
      congr 1
      rw [typeStepPair, dget_dset_ne _ _ _ _ h]

/-- Per-key view of pass (b) over a list of rows. -/
theorem dget_foldl_rowStepB (header : List String) (c : String) :
    ∀ (rows : List (List PyScalar)) (cols : Dict (Dict Nat)),
      dget (rows.foldl (fun cols row => (header.zip row).foldl typeStepPair cols) cols) c =
        ((rows.map (rowCellsC header c)).flatten).foldl histCellStep (dget cols c) := by
  intro rows
  induction rows with
  | nil => intro cols; rfl
  | cons row rest ih =>
    intro cols
    rw [List.foldl_cons, List.map_cons, List.flatten_cons, List.foldl_append, ih]
    congr 1
    rw [dget_foldl_typeStepPair, rowCellsC]

/-- Folding `histCellStep` from a present histogram never loses the
histogram. -/
theorem histCellFold_some :
    ∀ (cells : List PyScalar) (h0 : Dict Nat),
      cells.foldl histCellStep (some h0) =
        some (cells.foldl (fun h v => histInc h (determine_column_type v)) h0) := by
  intro cells
  induction cells with
  | nil => intro h0; rfl
  | cons v rest ih =>
    intro h0
    rw [List.foldl_cons, List.foldl_cons]
    exact ih _

/-- Lemma: `histInc` adds exactly the incremented key. -/
theorem dget_histInc_isSome (h : Dict Nat) (t t' : String) :
    (dget (histInc h t') t).isSome = true ↔ t = t' ∨ (dget h t).isSome = true := by
  rw [histInc]
  by_cases he : t = t'
  · subst he
    cases hd : dget h t with
    | none => simp [hd, dget_dset_self]
    | some nn => simp [hd, dget_dset_self]
  · have hne : t' ≠ t := fun hc => he hc.symm
    cases hd : dget h t' with
    | none => simp [hd, dget_dset_ne _ _ _ _ hne, he]
    | some nn => simp [hd, dget_dset_ne _ _ _ _ hne, he]

/-- The tag `t` is a key of the folded histogram iff it already was one or
some cell has tag `t`. -/
theorem dget_histFold_isSome (t : String) :
    ∀ (cells : List PyScalar) (h0 : Dict Nat),
      (dget (cells.foldl (fun h v => histInc h (determine_column_type v)) h0) t).isSome = true ↔
        ((dget h0 t).isSome = true ∨ ∃ v ∈ cells, determine_column_type v = t) := by
  intro cells
  induction cells with
  | nil => intro h0; simp
  | cons v rest ih =>
    intro h0
    rw [List.foldl_cons, ih, dget_histInc_isSome]
    simp only [List.mem_cons]
    constructor
    · rintro ((he | hs) | ⟨w, hw, hwt⟩)
      · exact Or.inr ⟨v, Or.inl rfl, he.symm⟩
      · exact Or.inl hs
      · exact Or.inr ⟨w, Or.inr hw, hwt⟩
    · rintro (hs | ⟨w, (hw | hw), hwt⟩)
      · exact Or.inl (Or.inr hs)
      · subst hw
        exact Or.inl (Or.inl hwt.symm)
      · exact Or.inr ⟨w, hw, hwt⟩

/-- Per-key view of pass (c) over the pairs of one row. -/
theorem dget_foldl_uniqStepPair (columns : Dict (Dict Nat)) (c : String) :
    ∀ (ps : List (String × PyScalar)) (ud : Dict (List PyScalar) × Dict (List PyScalar)),
      (dget (ps.foldl (uniqStepPair columns) ud).1 c,
        dget (ps.foldl (uniqStepPair columns) ud).2 c) =
        ((ps.filter (fun p => p.1 == c)).map Prod.snd).foldl
          (uniqCellStep ((dget columns c).getD [])) (dget ud.1 c, dget ud.2 c) := by
  intro ps
  induction ps with
  | nil => intro ud; rfl
  | cons p rest ih =>
    intro ud
    rw [List.foldl_cons, List.filter_cons]
    by_cases h : p.1 = c
    · rw [if_pos (by simpa using h), List.map_cons, List.foldl_cons, ih]
      congr 1
      subst h
      rw [uniqStepPair, uniqCellStep]
      by_cases h1 : (dget ((dget columns p.1).getD []) "T").isNone = true
      · rw [if_pos h1, if_pos h1]
      · rw [if_neg h1, if_neg h1]
        by_cases h2 : determine_column_type p.2 ≠ "T"
        · rw [if_pos h2, if_pos h2]
        · rw [if_neg h2, if_neg h2]
          by_cases h3 : p.2 ∈ (dget ud.1 p.1).getD []
          · rw [if_pos h3, if_pos h3]
            rw [Prod.mk.injEq]
            exact ⟨rfl, dget_dset_self _ _ _⟩
          · rw [if_neg h3, if_neg h3]
            rw [Prod.mk.injEq]
            exact ⟨dget_dset_self _ _ _, rfl⟩
    · rw [if_neg (by simpa using h), ih]
      congr 1
      rw [uniqStepPair]
      by_cases h1 : (dget ((dget columns p.1).getD []) "T").isNone = true
      · rw [if_pos h1]
      · rw [if_neg h1]
        by_cases h2 : determine_column_type p.2 ≠ "T"
        · rw [if_pos h2]
        · rw [if_neg h2]
          by_cases h3 : p.2 ∈ (dget ud.1 p.1).getD []
          · rw [if_pos h3]
            rw [Prod.mk.injEq]
            exact ⟨rfl, dget_dset_ne _ _ _ _ h⟩
          · rw [if_neg h3]
            rw [Prod.mk.injEq]
            exact ⟨dget_dset_ne _ _ _ _ h, rfl⟩

/-- Per-key view of pass (c) over a list of rows. -/
theorem dget_foldl_rowStepC (header : List String) (columns : Dict (Dict Nat)) (c : String) :
    ∀ (rows : List (List PyScalar)) (ud : Dict (List PyScalar) × Dict (List PyScalar)),
      (dget (rows.foldl
          (fun ud row => (header.zip row).foldl (uniqStepPair columns) ud) ud).1 c,
        dget (rows.foldl
          (fun ud row => (header.zip row).foldl (uniqStepPair columns) ud) ud).2 c) =
        ((rows.map (rowCellsC header c)).flatten).foldl
          (uniqCellStep ((dget columns c).getD [])) (dget ud.1 c, dget ud.2 c) := by
  intro rows
  induction rows with
  | nil => intro ud; rfl
  | cons row rest ih =>
    intro ud
    rw [List.foldl_cons, List.map_cons, List.flatten_cons, List.foldl_append, ih]
    congr 1
    rw [rowCellsC]
    exact dget_foldl_uniqStepPair columns c (header.zip row) ud

/-- Folding `uniqCellStep` from present lists yields present lists whose
total length grows by the number of 'T'-tagged cells (or does not grow at
all when the histogram lacks the 'T' key). -/
theorem uniqCellFold_lengths (histc : Dict Nat) :
    ∀ (cells : List PyScalar) (u0 d0 : List PyScalar),
      ∃ u1 d1, cells.foldl (uniqCellStep histc) (some u0, some d0) = (some u1, some d1) ∧
        u1.length + d1.length = u0.length + d0.length +
          (if (dget histc "T").isSome = true
            then cells.countP (fun v => determine_column_type v == "T") else 0) := by
  intro cells
  induction cells with
  | nil =>
    intro u0 d0
    exact ⟨u0, d0, rfl, by simp⟩
  | cons v rest ih =>
    intro u0 d0
    rw [List.foldl_cons, List.countP_cons]
    by_cases hT : (dget histc "T").isSome = true
    · have hnn : ¬((dget histc "T").isNone = true) := by
        cases hd : dget histc "T" with
        | none => rw [hd] at hT; simp at hT
        | some x => simp
      rw [uniqCellStep, if_neg hnn]
      by_cases hv : determine_column_type v = "T"
      · rw [if_neg (by simpa using hv)]
        by_cases hm : v ∈ ((some u0 : Option (List PyScalar)), (some d0 : Option (List PyScalar))).1.getD []
        · rw [if_pos hm]
          obtain ⟨u1, d1, heq, hlen⟩ := ih u0 (d0 ++ [v])
          refine ⟨u1, d1, heq, ?_⟩
          rw [hlen, if_pos hT, if_pos hT]
          simp [hv]
          omega
        · rw [if_neg hm]
          obtain ⟨u1, d1, heq, hlen⟩ := ih (u0 ++ [v]) d0
          refine ⟨u1, d1, heq, ?_⟩
          rw [hlen, if_pos hT, if_pos hT]
          simp [hv]
          omega
      · rw [if_pos (by simpa using hv)]
        obtain ⟨u1, d1, heq, hlen⟩ := ih u0 d0
        refine ⟨u1, d1, heq, ?_⟩
        rw [hlen, if_pos hT, if_pos hT]
        simp [hv]
    · have hnn : (dget histc "T").isNone = true := by
        cases hd : dget histc "T" with
        | none => simp
        | some x => rw [hd] at hT; simp at hT
      rw [uniqCellStep, if_pos hnn]
      obtain ⟨u1, d1, heq, hlen⟩ := ih u0 d0
      refine ⟨u1, d1, heq, ?_⟩
      rw [hlen, if_neg hT, if_neg hT]

/-- A successful finalisation keeps the uniques and duplicates dicts
shape-matched at every key. -/
theorem finalize_paired :
    ∀ (rest : List String) (u d u' d' : Dict UD),
      finalize rest u d = some (u', d') →
      (∀ k, pairedUD (dget u k) (dget d k)) →
      ∀ k, pairedUD (dget u' k) (dget d' k) := by
  intro rest
  induction rest with
  | nil =>
    intro u d u' d' hf hp k
    rw [finalize] at hf
    injection hf with hf2
    injection hf2 with h1 h2
    rw [← h1, ← h2]
    exact hp k
  | cons colname rest ih =>
    intro u d u' d' hf hp k
    rw [finalize] at hf
    cases hcu : dget u colname with
    | none => simp [hcu] at hf
    | some vu =>
      cases vu with
      | count nn => simp [hcu] at hf
      | cells uq =>
        cases hcd : dget d colname with
        | none => simp [hcu, hcd] at hf
        | some vd =>
          cases vd with
          | count nn => simp [hcu, hcd] at hf
          | cells du =>
            simp only [hcu, hcd] at hf
            by_cases hlen : uq.length < 1
            · rw [if_pos hlen] at hf
              refine ih _ _ _ _ hf ?_ k
              intro k2
              rw [dget_ddel, dget_ddel]
              by_cases hk2 : k2 = colname
              · rw [if_pos hk2, if_pos hk2]
                exact Or.inl ⟨rfl, rfl⟩
              · rw [if_neg hk2, if_neg hk2]
                exact hp k2
            · rw [if_neg hlen] at hf
              refine ih _ _ _ _ hf ?_ k
              intro k2
              by_cases hk2 : k2 = colname
              · subst hk2
                rw [dget_dset_self, dget_dset_self]
                exact Or.inr (Or.inr ⟨uq.length, du.length, rfl, rfl⟩)
              · rw [dget_dset_ne _ _ _ _ (fun hc => hk2 hc.symm),
                  dget_dset_ne _ _ _ _ (fun hc => hk2 hc.symm)]
                exact hp k2

/-- What a successful finalisation records for a key whose final entries
are counts: either the counts were already there, or the key held the
collected cell lists and the counts are their lengths (with a non-empty
uniques list). -/
theorem finalize_dget_counts :
    ∀ (rest : List String) (u d u' d' : Dict UD),
      finalize rest u d = some (u', d') →
      ∀ (k : String) (n m : Nat),
        dget u' k = some (UD.count n) → dget d' k = some (UD.count m) →
        (dget u k = some (UD.count n) ∧ dget d k = some (UD.count m)) ∨
        (∃ lu ld, dget u k = some (UD.cells lu) ∧ dget d k = some (UD.cells ld) ∧
          lu.length = n ∧ ld.length = m ∧ 1 ≤ n) := by
  intro rest
  induction rest with
  | nil =>
    intro u d u' d' hf k n m hu hd
    rw [finalize] at hf
    injection hf with hf2
    injection hf2 with h1 h2
    rw [← h1] at hu
    rw [← h2] at hd
    exact Or.inl ⟨hu, hd⟩
  | cons colname rest ih =>
    intro u d u' d' hf k n m hu hd
    rw [finalize] at hf
    cases hcu : dget u colname with
    | none => simp [hcu] at hf
    | some vu =>
      cases vu with
      | count nn => simp [hcu] at hf
      | cells uq =>
        cases hcd : dget d colname with
        | none => simp [hcu, hcd] at hf
        | some vd =>
          cases vd with
          | count nn => simp [hcu, hcd] at hf
          | cells du =>
            simp only [hcu, hcd] at hf
            by_cases hlen : uq.length < 1
            · rw [if_pos hlen] at hf
              rcases ih _ _ _ _ hf k n m hu hd with ⟨h1, h2⟩ | ⟨lu, ld, h1, h2, h3, h4, h5⟩
              · rw [dget_ddel] at h1 h2
                by_cases hk : k = colname
                · rw [if_pos hk] at h1
                  cases h1
                · rw [if_neg hk] at h1 h2
                  exact Or.inl ⟨h1, h2⟩
              · rw [dget_ddel] at h1 h2
                by_cases hk : k = colname
                · rw [if_pos hk] at h1
                  cases h1
                · rw [if_neg hk] at h1 h2
                  exact Or.inr ⟨lu, ld, h1, h2, h3, h4, h5⟩
            · rw [if_neg hlen] at hf
              rcases ih _ _ _ _ hf k n m hu hd with ⟨h1, h2⟩ | ⟨lu, ld, h1, h2, h3, h4, h5⟩
              · by_cases hk : k = colname
                · subst hk
                  rw [dget_dset_self] at h1 h2
                  injection h1 with h1a
                  injection h2 with h2a
                  injection h1a with h1b
                  injection h2a with h2b
                  exact Or.inr ⟨uq, du, hcu, hcd, h1b, h2b, by omega⟩
                · rw [dget_dset_ne _ _ _ _ (fun hc => hk hc.symm)] at h1
                  rw [dget_dset_ne _ _ _ _ (fun hc => hk hc.symm)] at h2
                  exact Or.inl ⟨h1, h2⟩
              · by_cases hk : k = colname
                · subst hk
                  rw [dget_dset_self] at h1
                  injection h1 with h1a
                  cases h1a
                · rw [dget_dset_ne _ _ _ _ (fun hc => hk hc.symm)] at h1
                  rw [dget_dset_ne _ _ _ _ (fun hc => hk hc.symm)] at h2
                  exact Or.inr ⟨lu, ld, h1, h2, h3, h4, h5⟩

/-- Membership in an updated dict. -/
theorem mem_dset {β : Type} (k : String) (v : β) :
    ∀ (d : Dict β) (q : String × β), q ∈ dset d k v → q ∈ d ∨ q = (k, v) := by
  intro d
  induction d with
  | nil =>
    intro q hq
    simp only [dset, List.mem_singleton] at hq
    exact Or.inr hq
  | cons p rest ih =>
    intro q hq
    obtain ⟨k', v'⟩ := p
    rw [dset] at hq
    by_cases h : k' = k
    · rw [if_pos (by simpa using h)] at hq
      rcases List.mem_cons.mp hq with hh | ht
      · subst hh
        exact Or.inr (by rw [h])
      · exact Or.inl (List.mem_cons_of_mem _ ht)
    · rw [if_neg (by simpa using h)] at hq
      rcases List.mem_cons.mp hq with hh | ht
      · exact Or.inl (by rw [hh]; exact List.mem_cons_self _ _)
      · rcases ih q ht with hq2 | hq2
        · exact Or.inl (List.mem_cons_of_mem _ hq2)
        · exact Or.inr hq2

/-- A successful finalisation only introduces counts of at least 1 into
the uniques dict. -/
theorem finalize_counts_ge_one :
    ∀ (rest : List String) (u d u' d' : Dict UD),
      finalize rest u d = some (u', d') →
      (∀ q ∈ u, ∀ n, q.2 = UD.count n → 1 ≤ n) →
      ∀ q ∈ u', ∀ n, q.2 = UD.count n → 1 ≤ n := by
  intro rest
  induction rest with
  | nil =>
    intro u d u' d' hf hinv
    rw [finalize] at hf
    injection hf with hf2
    injection hf2 with h1 h2
    rw [← h1]
    exact hinv
  | cons colname rest ih =>
    intro u d u' d' hf hinv
    rw [finalize] at hf
    cases hcu : dget u colname with
    | none => simp [hcu] at hf
    | some vu =>
      cases vu with
      | count nn => simp [hcu] at hf
      | cells uq =>
        cases hcd : dget d colname with
        | none => simp [hcu, hcd] at hf
        | some vd =>
          cases vd with
          | count nn => simp [hcu, hcd] at hf
          | cells du =>
            simp only [hcu, hcd] at hf
            by_cases hlen : uq.length < 1
            · rw [if_pos hlen] at hf
              refine ih _ _ _ _ hf ?_
              intro q hq n hqn
              exact hinv q (List.mem_filter.mp hq).1 n hqn
            · rw [if_neg hlen] at hf
              refine ih _ _ _ _ hf ?_
              intro q hq n hqn
              rcases mem_dset _ _ _ q hq with hq2 | hq2
              · exact hinv q hq2 n hqn
              · rw [hq2] at hqn
                injection hqn with hqn2
                omega

/-- A successful count projection: entries are exactly the counted entries,
keys and positions preserved. -/
theorem projCounts_dget :
    ∀ (d : Dict UD) (out : Dict Nat), projCounts d = some out →
      ∀ k, (dget d k = none ∧ dget out k = none) ∨
        (∃ nn, dget d k = some (UD.count nn) ∧ dget out k = some nn) := by
  intro d
  induction d with
  | nil =>
    intro out h k
    injection h with h2
    rw [← h2]
    exact Or.inl ⟨rfl, rfl⟩
  | cons p rest ih =>
    intro out h k
    obtain ⟨k', v'⟩ := p
    cases v' with
    | cells l => cases h
    | count nn =>
      rw [projCounts] at h
      cases houtr : projCounts rest with
      | none => rw [houtr] at h; cases h
      | some outr =>
      rw [houtr] at h
      injection h with houteq
      rw [← houteq]
      by_cases hk : k' = k
      · refine Or.inr ⟨nn, ?_, ?_⟩
        · rw [dget, if_pos (by simpa using hk)]
        · rw [dget, if_pos (by simpa using hk)]
      · have hrec := ih outr houtr k
        rcases hrec with ⟨h1, h2⟩ | ⟨mm, h1, h2⟩
        · refine Or.inl ⟨?_, ?_⟩
          · rw [dget, if_neg (by simpa using hk)]
            exact h1
          · rw [dget, if_neg (by simpa using hk)]
            exact h2
        · refine Or.inr ⟨mm, ?_, ?_⟩
          · rw [dget, if_neg (by simpa using hk)]
            exact h1
          · rw [dget, if_neg (by simpa using hk)]
            exact h2

/-- A successful count projection relates the entries elementwise. -/
theorem projCounts_mem :
    ∀ (d : Dict UD) (out : Dict Nat), projCounts d = some out →
      ∀ p ∈ out, (p.1, UD.count p.2) ∈ d := by
  intro d
  induction d with
  | nil =>
    intro out h p hp
    injection h with h2
    rw [← h2] at hp
    cases hp
  | cons q rest ih =>
    intro out h p hp
    obtain ⟨k', v'⟩ := q
    cases v' with
    | cells l => cases h
    | count nn =>
      rw [projCounts] at h
      cases houtr : projCounts rest with
      | none => rw [houtr] at h; cases h
      | some outr =>
      rw [houtr] at h
      injection h with houteq
      rw [← houteq] at hp
      rcases List.mem_cons.mp hp with hh | ht
      · rw [hh]
        exact List.mem_cons_self _ _
      · exact List.mem_cons_of_mem _ (ih outr houtr p ht)

/-! ## Claim C8: assembly -/
/-- A column name outside the header contributes no cells. -/
theorem columnCells_of_not_mem (dataset : List (List PyScalar)) (header : List String)
    (c : String) (h : c ∉ header) : columnCells dataset header c = [] := by
  rw [columnCells]
  have hrow : ∀ row, rowCellsC header c row = [] := by
    intro row
    rw [rowCellsC]
    have hfil : (header.zip row).filter (fun p => p.1 == c) = [] := by
      rw [List.filter_eq_nil]
      intro p hp
      obtain ⟨p1, p2⟩ := p
      have hmem := (List.of_mem_zip hp).1
      simp only [beq_iff_eq]
      exact fun hc => h (hc ▸ hmem)
    rw [hfil]
    rfl
  have hall : ∀ (rows : List (List PyScalar)),
      ((rows.map (rowCellsC header c)).flatten = []) := by
    intro rows
    induction rows with
    | nil => rfl
    | cons row rest ih =>
      rw [List.map_cons, List.flatten_cons, hrow, List.nil_append]
      exact ih
  exact hall _

/-- Per-key characterisation of the uniques/duplicates dicts after
pass (c): keys outside the header are absent; keys in the header hold the
collected lists, whose total length is the number of 'T'-tagged in-scope
cells (or 0 when the column histogram lacks the 'T' key). -/
theorem passC_key_char (dataset : List (List PyScalar)) (header : List String)
    (columns : Dict (Dict Nat)) (U D : Dict (List PyScalar))
    (hW : List.foldl (fun ud row => (header.zip row).foldl (uniqStepPair columns) ud)
      (initDict header ([] : List PyScalar), initDict header ([] : List PyScalar))
      (dataset.filter (fun r => r.length == header.length)) = (U, D)) (k : String) :
    (k ∉ header ∧ dget U k = none ∧ dget D k = none) ∨
    (k ∈ header ∧ ∃ u1 d1, dget U k = some u1 ∧ dget D k = some d1 ∧
      u1.length + d1.length =
        (if (dget ((dget columns k).getD []) "T").isSome = true
          then (columnCells dataset header k).countP
            (fun v => determine_column_type v == "T") else 0)) := by
  have hkey := dget_foldl_rowStepC header columns k
    (dataset.filter (fun r => r.length == header.length))
    (initDict header ([] : List PyScalar), initDict header ([] : List PyScalar))
  rw [hW] at hkey
  by_cases hch : k ∈ header
  · right
    refine ⟨hch, ?_⟩
    rw [show (dget (initDict header ([] : List PyScalar), initDict header
        ([] : List PyScalar)).1 k) = some [] from by
      rw [dget_initDict, if_pos hch]] at hkey
    obtain ⟨u1, d1, hfold, hlen⟩ := uniqCellFold_lengths ((dget columns k).getD [])
      (((dataset.filter (fun r => r.length == header.length)).map
        (rowCellsC header k)).flatten) [] []
    rw [hfold] at hkey
    have h1 : dget U k = some u1 := congrArg Prod.fst hkey
    have h2 : dget D k = some d1 := congrArg Prod.snd hkey
    refine ⟨u1, d1, h1, h2, ?_⟩
    rw [columnCells]
    simpa using hlen
  · left
    refine ⟨hch, ?_⟩
    have hcc := columnCells_of_not_mem dataset header k hch
    rw [columnCells] at hcc
    rw [hcc] at hkey
    rw [show (dget (initDict header ([] : List PyScalar), initDict header
        ([] : List PyScalar)).1 k) = none from by
      rw [dget_initDict, if_neg hch]] at hkey
    exact ⟨congrArg Prod.fst hkey, congrArg Prod.snd hkey⟩

/-- Per-key characterisation of the column histograms after pass (b): for
keys in the header, the histogram has the 'T' key iff the column has a
'T'-tagged in-scope cell. -/
theorem passB_key_char (dataset : List (List PyScalar)) (header : List String)
    (columns : Dict (Dict Nat))
    (hB : List.foldl (fun cols row => (header.zip row).foldl typeStepPair cols)
      (initDict header ([] : Dict Nat))
      (dataset.filter (fun r => r.length == header.length)) = columns)
    (k : String) (hch : k ∈ header) :
    ((dget ((dget columns k).getD []) "T").isSome = true ↔
      ∃ v ∈ columnCells dataset header k, determine_column_type v = "T") := by
  have hkey := dget_foldl_rowStepB header k
    (dataset.filter (fun r => r.length == header.length)) (initDict header ([] : Dict Nat))
  rw [hB] at hkey
  rw [dget_initDict, if_pos hch, histCellFold_some] at hkey
  rw [hkey]
  rw [Option.getD_some, dget_histFold_isSome]
  rw [columnCells]
  simp [dget]

/-- C8: whenever `inspect_dataset` returns metadata (for a non-empty
header), the uniqueness and duplicates mappings have exactly the same
keys, every present uniqueness count is at least 1, and for each present
column the uniqueness count plus the duplicates count equals the number of
'T'-tagged cells of that column over the length-conformant rows. -/
theorem claim_C8 :
    ∀ (dataset : List (List PyScalar)) (header : List String) (r : InspectResult),
      header ≠ [] → inspect_dataset dataset header = some r →
      ((∀ k, (dget r.uniques k).isSome = (dget r.duplicates k).isSome) ∧
       (∀ p ∈ r.uniques, 1 ≤ p.2) ∧
       (∀ c un dn, dget r.uniques c = some un → dget r.duplicates c = some dn →
          un + dn = tCellCount dataset header c)) := by
  intro dataset header r _ hr
  simp only [inspect_dataset] at hr
  obtain ⟨columns, hcolumns⟩ : ∃ x, loopSkip (collectSkips header.length 0 dataset)
      (fun cols row => (header.zip row).foldl typeStepPair cols) 0 dataset
      (initDict header ([] : Dict Nat)) = x := ⟨_, rfl⟩
  rw [hcolumns] at hr
  obtain ⟨W, hW0⟩ : ∃ x, loopSkip (collectSkips header.length 0 dataset)
      (fun ud row => (header.zip row).foldl (uniqStepPair columns) ud) 0 dataset
      (initDict header ([] : List PyScalar), initDict header ([] : List PyScalar)) = x :=
    ⟨_, rfl⟩
  rw [hW0] at hr
  obtain ⟨U, D⟩ := W
  -- convert the two loops to folds over the conformant rows
  have hB : List.foldl (fun cols row => (header.zip row).foldl typeStepPair cols)
      (initDict header ([] : Dict Nat))
      (dataset.filter (fun r => r.length == header.length)) = columns := by
    rw [← hcolumns]
    have := loopSkip_eq_foldl header.length
      (fun cols row => (header.zip row).foldl typeStepPair cols) dataset []
      (initDict header ([] : Dict Nat))
    simpa using this.symm
  have hW : List.foldl (fun ud row => (header.zip row).foldl (uniqStepPair columns) ud)
      (initDict header ([] : List PyScalar), initDict header ([] : List PyScalar))
      (dataset.filter (fun r => r.length == header.length)) = (U, D) := by
    rw [← hW0]
    have := loopSkip_eq_foldl header.length
      (fun ud row => (header.zip row).foldl (uniqStepPair columns) ud) dataset []
      (initDict header ([] : List PyScalar), initDict header ([] : List PyScalar))
    simpa using this.symm
  -- dissect the finalisation and projection
  cases hfin : finalize header (U.map (fun p => (p.1, UD.cells p.2)))
      (D.map (fun p => (p.1, UD.cells p.2))) with
  | none =>
    rw [hfin] at hr
    cases hr
  | some ud2 =>
    obtain ⟨u', d'⟩ := ud2
    rw [hfin] at hr
    dsimp only at hr
    cases hpu : projCounts u' with
    | none =>
      rw [hpu] at hr
      cases hpd : projCounts d' with
      | none => rw [hpd] at hr; cases hr
      | some dq => rw [hpd] at hr; cases hr
    | some uq =>
      rw [hpu] at hr
      cases hpd : projCounts d' with
      | none => rw [hpd] at hr; cases hr
      | some dq =>
        rw [hpd] at hr
        injection hr with hr2
        rw [← hr2]
        -- the pre-finalisation dicts are shape-matched at every key
        have hpaired0 : ∀ k, pairedUD (dget (U.map (fun p => (p.1, UD.cells p.2))) k)
            (dget (D.map (fun p => (p.1, UD.cells p.2))) k) := by
          intro k
          rw [dget_map_val, dget_map_val]
          rcases passC_key_char dataset header columns U D hW k with
            ⟨_, h1, h2⟩ | ⟨_, u1, d1, h1, h2, _⟩
          · rw [h1, h2]
            exact Or.inl ⟨rfl, rfl⟩
          · rw [h1, h2]
            exact Or.inr (Or.inl ⟨u1, d1, rfl, rfl⟩)
        refine ⟨?_, ?_, ?_⟩
        · -- same keys
          intro k
          have hp := finalize_paired header _ _ _ _ hfin hpaired0 k
          rcases hp with ⟨h1, h2⟩ | ⟨lu, ld, h1, h2⟩ | ⟨nn, mm, h1, h2⟩
          · rcases projCounts_dget u' uq hpu k with ⟨g1, g2⟩ | ⟨nn, g1, g2⟩
            · rcases projCounts_dget d' dq hpd k with ⟨f1, f2⟩ | ⟨mm, f1, f2⟩
              · simp [g2, f2]
              · rw [h2] at f1; cases f1
            · rw [h1] at g1; cases g1
          · rcases projCounts_dget u' uq hpu k with ⟨g1, g2⟩ | ⟨nn, g1, g2⟩
            · rw [h1] at g1; cases g1
            · rw [h1] at g1
              injection g1 with g1a
              cases g1a
          · rcases projCounts_dget u' uq hpu k with ⟨g1, g2⟩ | ⟨nn2, g1, g2⟩
            · rw [h1] at g1; cases g1
            · rcases projCounts_dget d' dq hpd k with ⟨f1, f2⟩ | ⟨mm2, f1, f2⟩
              · rw [h2] at f1; cases f1
              · simp [g2, f2]
        · -- counts at least 1
          intro p hp
          have hmem := projCounts_mem u' uq hpu p hp
          refine finalize_counts_ge_one header _ _ _ _ hfin ?_ (p.1, UD.count p.2) hmem
            p.2 rfl
          intro q hq n hqn
          obtain ⟨p', _, rfl⟩ := List.mem_map.mp hq
          cases hqn
        · -- uniques + duplicates = number of in-scope 'T' cells
          intro c un dn hun hdn
          have hu' : dget u' c = some (UD.count un) := by
            rcases projCounts_dget u' uq hpu c with ⟨g1, g2⟩ | ⟨nn, g1, g2⟩
            · rw [g2] at hun; cases hun
            · rw [g2] at hun
              injection hun with hun2
              rw [← hun2]
              exact g1
          have hd' : dget d' c = some (UD.count dn) := by
            rcases projCounts_dget d' dq hpd c with ⟨g1, g2⟩ | ⟨mm, g1, g2⟩
            · rw [g2] at hdn; cases hdn
            · rw [g2] at hdn
              injection hdn with hdn2
              rw [← hdn2]
              exact g1
          rcases finalize_dget_counts header _ _ _ _ hfin c un dn hu' hd' with
            ⟨h1, _⟩ | ⟨lu, ld, h1, h2, h3, h4, _⟩
          · rw [dget_map_val] at h1
            cases hUc : dget U c with
            | none => rw [hUc] at h1; cases h1
            | some l =>
              rw [hUc] at h1
              injection h1 with h1a
              cases h1a
          · rw [dget_map_val] at h1 h2
            have hUc : dget U c = some lu := by
              cases hU2 : dget U c with
              | none => rw [hU2] at h1; cases h1
              | some l =>
                rw [hU2] at h1
                injection h1 with h1a
                injection h1a with h1b
                rw [h1b]
            have hDc : dget D c = some ld := by
              cases hD2 : dget D c with
              | none => rw [hD2] at h2; cases h2
              | some l =>
                rw [hD2] at h2
                injection h2 with h2a
                injection h2a with h2b
                rw [h2b]
            rcases passC_key_char dataset header columns U D hW c with
              ⟨_, g1, _⟩ | ⟨hch, u1, d1, g1, g2, glen⟩
            · rw [hUc] at g1; cases g1
            · rw [hUc] at g1
              injection g1 with g1a
              rw [hDc] at g2
              injection g2 with g2a
              subst g1a
              subst g2a
              rw [tCellCount]
              by_cases hTex : ∃ v ∈ columnCells dataset header c,
                  determine_column_type v = "T"
              · rw [if_pos ((passB_key_char dataset header columns hB c hch).mpr hTex)]
                  at glen
                omega
              · rw [if_neg (fun hc =>
                  hTex ((passB_key_char dataset header columns hB c hch).mp hc))] at glen
                have hzero : (columnCells dataset header c).countP
                    (fun v => determine_column_type v == "T") = 0 := by
                  rw [List.countP_eq_zero]
                  intro v hv
                  simp only [beq_iff_eq]
                  exact fun hc => hTex ⟨v, hv, by simpa using hc⟩
                omega

/-- C8 witness: the invariant instantiated at the six-row sample dataset
and column 'a' (uniques 1 + duplicates 1 = two 'T'-tagged cells). -/
theorem claim_C8_witness :
    1 + 1 = tCellCount
      [[.str "a1", .str "b1", .str "c1"],
       [.str "a2", .str "c2"],
       [.str "a3", .str "b3", .str "c3"],
       [.str "a4", .str "bib", .str "3"],
       [.str "ay", .str "bib", .str "x"],
       [.str "ay", .str "bib", .str "x"]]
      ["a", "b", "c"] "a" := by
  have h := claim_C8
    [[.str "a1", .str "b1", .str "c1"],
     [.str "a2", .str "c2"],
     [.str "a3", .str "b3", .str "c3"],
     [.str "a4", .str "bib", .str "3"],
     [.str "ay", .str "bib", .str "x"],
     [.str "ay", .str "bib", .str "x"]]
    ["a", "b", "c"]
    { skiprows := [1],
      columns := [("a", [("PN", 3), ("T", 2)]),
                  ("b", [("PN", 2), ("T", 3)]),
                  ("c", [("PN", 2), ("N", 1), ("T", 2)])],
      uniques := [("a", 1), ("b", 1), ("c", 1)],
      duplicates := [("a", 1), ("b", 2), ("c", 1)] }
    (by decide) (by decide)
  exact h.2.2 "a" 1 1 (by decide) (by decide)
